import Mathlib

/-!
Verification of the MT (SWIFT message text) parsing library.

The Go sources are embedded shallowly:

* Go strings are modelled as lists of characters (`Str`).  All inputs the
  library handles are ASCII, where Go byte indexing, byte lengths and rune
  iteration coincide with positions in the character list.
* Functions returning `(value, error)` become functions returning the value
  together with `Option` of an error; a run-time fault (index out of range,
  call of a nil function value) is modelled by an explicit `panic`
  constructor or by `Option.none` at the outermost level.
* Error values carry the data that decides control flow; the exact
  `fmt.Errorf` message strings are not reproduced, only which error is
  produced and what it wraps.
-/

set_option autoImplicit false

/-- Go strings, as lists of characters. -/
abbrev Str := List Char

/-- The character list of a Lean string literal. -/
def strOf (s : String) : Str := s.data

namespace MTPattern

/-! ### Character-set tables (internal/pattern, charsets)

From the pattern package: the named character classes the DSL refers to.
-/

/-- Class n: the digits 0-9. -/
def numbers (r : Char) : Bool := decide ('0' ≤ r) && decide (r ≤ '9')

/-- Lowercase ASCII letters. -/
def alphaLower (r : Char) : Bool := decide ('a' ≤ r) && decide (r ≤ 'z')

/-- Class a: uppercase ASCII letters. -/
def alphaUpper (r : Char) : Bool := decide ('A' ≤ r) && decide (r ≤ 'Z')

/-- Class c: digits or uppercase letters. -/
def alphaNumericUpper (r : Char) : Bool := numbers r || alphaUpper r

/-- Class d: digits plus the decimal comma. -/
def floats (r : Char) : Bool := numbers r || r == ','

/-- The fixed punctuation set of class x. -/
def special (r : Char) : Bool :=
  r == '/' || r == '-' || r == '?' || r == ':' || r == '(' || r == ')' ||
  r == '.' || r == ',' || r == '\'' || r == '+' || r == '\x7b' || r == '\x7d' ||
  r == '\n' || r == ' '

/-- Class x: any of the other classes plus punctuation. -/
def anyChar (r : Char) : Bool := alphaNumericUpper r || alphaLower r || floats r || special r

/-- The charSets map keyed by the single-letter class key.  A key outside
the table yields none, which models the nil CharSet function value Go
returns for a missing map key. -/
def charSets (k : Str) : Option (Char → Bool) :=
  if k = strOf "n" then some numbers
  else if k = strOf "a" then some alphaUpper
  else if k = strOf "c" then some alphaNumericUpper
  else if k = strOf "x" then some anyChar
  else if k = strOf "d" then some floats
  else none

/-- The five class keys of the charSets table. -/
def charSetsKeys : List Char := ['n', 'a', 'c', 'x', 'd']

/-! ### Pattern matchers (internal/pattern)

Each matcher implements ValidatesPartially: given the input and the current
line it returns the remaining input together with an optional error.  A
run-time fault (the call of a nil CharSet) is the extra `panic` outcome.
-/

/-- The pattern-match errors, by kind and payload; message strings are not
reproduced. -/
inductive PatErr where
  | literalExpected (lit : Str)
  | countShort (want got : Nat) (key : Str)
  | orFailed (l r : PatErr)
  | orFailedTie
  | lineErr (line : Int) (e : PatErr)
  | lineIncomplete (line : Int)
  | inputInvalid (e : PatErr)
  | incompleteMatch
  deriving DecidableEq

/-- Outcome of a partial match: remaining input and optional error, or a
run-time fault. -/
inductive PartialRes where
  | res (rest : Str) (err : Option PatErr)
  | panic
  deriving DecidableEq

/-- A compiled matcher: the ValidatesPartially interface. -/
abbrev PartialValidator := Str → Int → PartialRes

/-- Outcome of a full-match validation. -/
inductive Verdict where
  | ok
  | fail (e : PatErr)
  | panic
  deriving DecidableEq

/-- Literal.ValidatePartial: prefix check; on a miss the input is returned
unchanged with a literal-expected error. -/
def Literal.validatePartial (chars : Str) (input : Str) (_currLine : Int) : PartialRes :=
  if chars.isPrefixOf input then
    if input.length > chars.length then .res (input.drop chars.length) none
    else .res [] none
  else .res input (some (.literalExpected chars))

/-- Optional.ValidatePartial: run the child; on error consume nothing and
succeed. -/
def Optional.validatePartial (p : PartialValidator) (input : Str) (currLine : Int) : PartialRes :=
  match p input currLine with
  | .panic => .panic
  | .res _ (some _) => .res input none
  | .res rest none => .res rest none

/-- A compiled character group: class key, the (possibly absent) class
predicate, the count and whether the count is strict. -/
structure CharGroup where
  charSetKey : Str
  charSet : Option (Char → Bool)
  count : Nat
  countStrict : Bool

/-- The BeforeDecimalLoop of CharGroup.countAndStripFloats: consume digits
up to the count, stop after one comma; a foreign character aborts (none).
Arguments: remaining input, chars consumed so far, digits seen so far.
Returns final (charCount, countBeforeDecimal). -/
def cgBefore (cnt : Nat) : Str → Nat → Nat → Option (Nat × Nat)
  | [], charCount, countBefore => some (charCount, countBefore)
  | r :: rest, charCount, countBefore =>
    if countBefore = cnt then some (charCount, countBefore)
    else if r = ',' then some (charCount + 1, countBefore)
    else if numbers r then cgBefore cnt rest (charCount + 1) (countBefore + 1)
    else none

/-- The AfterDecimalLoop of CharGroup.countAndStripFloats: consume digits
until the total count is reached; the first non-digit is consumed and ends
the loop.  Arguments: snapshot of the input after the first loop, chars
consumed so far, digits seen after the comma so far.  Returns final
(charCount, countAfterDecimal). -/
def cgAfter (cnt countBefore : Nat) : Str → Nat → Nat → Nat × Nat
  | [], charCount, countAfter => (charCount, countAfter)
  | r :: rest, charCount, countAfter =>
    if countBefore + countAfter = cnt then (charCount, countAfter)
    else if numbers r then cgAfter cnt countBefore rest (charCount + 1) (countAfter + 1)
    else (charCount + 1, countAfter)

/-- CharGroup.countAndStripFloats: count and strip an amount, requiring at
least one digit after the decimal comma. -/
def countAndStripFloats (cnt : Nat) (input : Str) : Nat × Str :=
  match cgBefore cnt input 0 0 with
  | none => (0, input)
  | some (cc1, countBefore) =>
    match cgAfter cnt countBefore (input.drop cc1) cc1 0 with
    | (cc2, countAfter) =>
      if countAfter = 0 then (0, input)
      else (countBefore + countAfter, input.drop cc2)

/-- The default loop of CharGroup.countAndStripChars: consume characters of
the class up to the count.  A none class predicate models Go calling a nil
function value: the result is none (a run-time fault). -/
def cgCountChars (f : Option (Char → Bool)) (cnt : Nat) : Str → Nat → Option Nat
  | [], n => some n
  | r :: rest, n =>
    if n = cnt then some n
    else
      match f with
      | none => none
      | some fn => if fn r then cgCountChars f cnt rest (n + 1) else some n

/-- CharGroup.countAndStripChars: dispatch on the class key; d uses the
float logic, the rest the plain class loop. -/
def countAndStripChars (cg : CharGroup) (input : Str) : Option (Nat × Str) :=
  if cg.charSetKey = strOf "d" then some (countAndStripFloats cg.count input)
  else
    match cgCountChars cg.charSet cg.count input 0 with
    | none => none
    | some n => some (n, input.drop n)

/-- CharGroup.ValidatePartial: count and strip, then fail only when strict
and short. -/
def CharGroup.validatePartial (cg : CharGroup) (input : Str) (_currLine : Int) : PartialRes :=
  match countAndStripChars cg input with
  | none => .panic
  | some (cnt, newInput) =>
    if cnt < cg.count ∧ cg.countStrict then
      .res newInput (some (.countShort cg.count cnt cg.charSetKey))
    else .res newInput none

/-- Pattern.ValidatePartial: run the members left to right, threading the
remaining input; the first error aborts. -/
def Pattern.validatePartial (ps : List PartialValidator) (input : Str) (currLine : Int) :
    PartialRes :=
  match ps with
  | [] => .res input none
  | pv :: rest =>
    match pv input currLine with
    | .panic => .panic
    | .res r (some e) => .res r (some e)
    | .res r none => Pattern.validatePartial rest r currLine

/-- Pattern.Validate: run the members at line 1, wrapping the first error;
a non-empty remainder is an incomplete match. -/
def Pattern.validate (ps : List PartialValidator) (input : Str) : Verdict :=
  match ps with
  | [] => if input = [] then .ok else .fail .incompleteMatch
  | pv :: rest =>
    match pv input 1 with
    | .panic => .panic
    | .res _ (some e) => .fail (.inputInvalid e)
    | .res r none => Pattern.validate rest r

/-- OrPattern.ValidatePartial: try the left branch; if it succeeded and
consumed everything return it without trying the right branch; otherwise
try the right branch and resolve per the switch of the source. -/
def OrPattern.validatePartial (left right : PartialValidator) (input : Str) (currLine : Int) :
    PartialRes :=
  match left input currLine with
  | .panic => .panic
  | .res restLeft errLeft =>
    if errLeft = none ∧ restLeft = [] then .res restLeft none
    else
      match right input currLine with
      | .panic => .panic
      | .res restRight errRight =>
        match errLeft, errRight with
        | none, some _ => .res restLeft none
        | some _, none => .res restRight none
        | none, none =>
          if restLeft.length < restRight.length then .res restLeft none
          else if restRight.length < restLeft.length then .res restRight none
          else .res input (some .orFailedTie)
        | some eL, some eR => .res input (some (.orFailed eL eR))

/-- strings.Split on the newline separator. -/
def splitNl : Str → List Str
  | [] => [[]]
  | c :: rest =>
    if c = '\n' then [] :: splitNl rest
    else
      match splitNl rest with
      | [] => [[c]]
      | h :: t => (c :: h) :: t

/-- The loop of LinePattern.ValidatePartial over the pre-split lines:
while lines remain and the current line is in range, the child must fully
consume the line; the consumed prefix (line plus newline) is dropped from
the input. -/
def LinePattern.lineLoop (p : PartialValidator) (inRange : Int → Bool) :
    List Str → Str → Int → PartialRes
  | [], input, _ => .res input none
  | line :: rest, input, currLine =>
    if inRange currLine then
      match p line currLine with
      | .panic => .panic
      | .res _ (some e) => .res input (some (.lineErr currLine e))
      | .res r none =>
        if r = [] then
          LinePattern.lineLoop p inRange rest
            (if input.length > line.length + 1 then input.drop (line.length + 1) else [])
            (currLine + 1)
        else .res input (some (.lineIncomplete currLine))
    else .res input none

/-- LinePattern.ValidatePartial: split the input on newlines and run the
line loop. -/
def LinePattern.validatePartial (inRange : Int → Bool) (p : PartialValidator)
    (input : Str) (currLine : Int) : PartialRes :=
  LinePattern.lineLoop p inRange (splitNl input) input currLine

/-! ### Claim C6: literal validation -/

lemma validate_single (f : PartialValidator) (input : Str) :
    Pattern.validate [f] input =
      match f input 1 with
      | .panic => .panic
      | .res _ (some e) => .fail (.inputInvalid e)
      | .res r none => if r = [] then .ok else .fail .incompleteMatch := by
  cases h : f input 1 with
  | panic => simp [Pattern.validate, h]
  | res r err => cases err <;> simp [Pattern.validate, h]

/-- Claim C6, counterexample: the string ab starts with the literal a, yet
validating ab against the compiled pattern of the single literal a fails
(with an incomplete-match error), so the claimed failure condition (t fails
iff t does not start with s) is false. -/
theorem C6_literal_counterexample :
    (strOf "a").isPrefixOf (strOf "ab") = true ∧
      Pattern.validate [Literal.validatePartial (strOf "a")] (strOf "ab") ≠ .ok ∧
      Pattern.validate [Literal.validatePartial (strOf "a")] (strOf "ab") =
        .fail .incompleteMatch := by
  refine ⟨by decide, by decide, by decide⟩

/-- Claim C6, amended: validating s against the compiled Literal(s) pattern
succeeds and the partial match leaves the empty remainder; full validation
of t succeeds exactly when t equals s (a longer t that still starts with s
is rejected as an incomplete match); the partial match of t fails exactly
when t does not start with s. -/
theorem C6_literal_amended (s t : Str) :
    Pattern.validate [Literal.validatePartial s] s = .ok
    ∧ Literal.validatePartial s s 1 = .res [] none
    ∧ (Pattern.validate [Literal.validatePartial s] t = .ok ↔ t = s)
    ∧ ((∃ e, Literal.validatePartial s t 1 = .res t (some e)) ↔ ¬ s.isPrefixOf t) := by
  have hps : s.isPrefixOf s = true := by
    rw [List.isPrefixOf_iff_prefix]
  have hlit : Literal.validatePartial s s 1 = .res [] none := by
    rw [Literal.validatePartial, if_pos hps, if_neg (by omega)]
  refine ⟨?_, hlit, ?_, ?_⟩
  · rw [validate_single, hlit]
    simp
  · rw [validate_single]
    by_cases hp : s.isPrefixOf t
    · have hpre : s <+: t := List.isPrefixOf_iff_prefix.mp hp
      by_cases hlen : t.length > s.length
      · rw [Literal.validatePartial, if_pos hp, if_pos hlen]
        have hdrop : t.drop s.length ≠ [] := by
          intro hd
          rw [List.drop_eq_nil_iff] at hd
          omega
        simp only [if_neg hdrop]
        constructor
        · intro h
          exact absurd h (by simp)
        · intro h
          subst h
          omega
      · have : s.length ≤ t.length := hpre.length_le
        have hlen2 : t.length = s.length := by omega
        have heq : s = t := hpre.eq_of_length hlen2.symm
        rw [Literal.validatePartial, if_pos hp, if_neg hlen]
        simp [heq]
    · rw [Literal.validatePartial, if_neg hp]
      constructor
      · intro h
        exact absurd h (by simp)
      · intro h
        subst h
        exact absurd hps hp
  · by_cases hp : s.isPrefixOf t
    · rw [Literal.validatePartial, if_pos hp]
      by_cases hlen : t.length > s.length <;> simp [hlen, hp]
    · rw [Literal.validatePartial, if_neg hp]
      simp [hp]

/-! ### Claim C1: resolution of the Or matcher -/

/-- Claim C1: for every compiled Or matcher and every input, at any current
line: if the left branch succeeds consuming the whole input, the left
result is returned; if exactly one branch succeeds, that branch's result is
returned; and if both branches succeed with remainders of different
lengths, the branch leaving the shorter remainder (the one that consumed
more input) is returned. -/
theorem C1_or_resolution (l r : PartialValidator) (input : Str) (cl : Int) :
    (l input cl = .res [] none →
      OrPattern.validatePartial l r input cl = .res [] none)
    ∧ (∀ restL restR e, l input cl = .res restL none → r input cl = .res restR (some e) →
        OrPattern.validatePartial l r input cl = .res restL none)
    ∧ (∀ restL restR e, l input cl = .res restL (some e) → r input cl = .res restR none →
        OrPattern.validatePartial l r input cl = .res restR none)
    ∧ (∀ restL restR, l input cl = .res restL none → r input cl = .res restR none →
        restL.length < restR.length →
        OrPattern.validatePartial l r input cl = .res restL none)
    ∧ (∀ restL restR, l input cl = .res restL none → r input cl = .res restR none →
        restR.length < restL.length →
        OrPattern.validatePartial l r input cl = .res restR none) := by
  refine ⟨?_, ?_, ?_, ?_, ?_⟩
  · intro hl
    simp [OrPattern.validatePartial, hl]
  · intro restL restR e hl hr
    by_cases hL : restL = []
    · subst hL
      simp [OrPattern.validatePartial, hl]
    · simp [OrPattern.validatePartial, hl, hr, hL]
  · intro restL restR e hl hr
    simp [OrPattern.validatePartial, hl, hr]
  · intro restL restR hl hr hlen
    by_cases hL : restL = []
    · subst hL
      simp [OrPattern.validatePartial, hl]
    · simp [OrPattern.validatePartial, hl, hr, hL, hlen]
  · intro restL restR hl hr hlen
    have hL : restL ≠ [] := by
      intro h
      subst h
      simp at hlen
    have hnot : ¬ restL.length < restR.length := by omega
    simp [OrPattern.validatePartial, hl, hr, hL, hlen, hnot]

/-- Claim C1, witness: with left the literal a and right the literal ab on
input ab, both branches succeed, the right branch leaves the shorter
remainder, and the Or matcher returns the right branch's result. -/
theorem C1_or_resolution_witness :
    OrPattern.validatePartial (Literal.validatePartial (strOf "a"))
        (Literal.validatePartial (strOf "ab")) (strOf "ab") 1 = .res [] none := by
  have h := (C1_or_resolution (Literal.validatePartial (strOf "a"))
    (Literal.validatePartial (strOf "ab")) (strOf "ab") 1).2.2.2.2
  exact h (strOf "b") [] (by decide) (by decide) (by decide)


/-! ### Claim C2: the d-class character group -/

/-- All characters of the string are digits. -/
abbrev digitsOnly (s : Str) : Prop := ∀ x ∈ s, numbers x = true

/-- The compiled form of the non-strict pattern cd: a single d-class group
with count c, its predicate the floats class, as the processor builds it. -/
def dGroup (c : Nat) : CharGroup :=
  { charSetKey := strOf "d", charSet := some floats, count := c, countStrict := false }

/-- The compiled pattern holding only the d-class group. -/
def dPattern (c : Nat) : List PartialValidator := [CharGroup.validatePartial (dGroup c)]

lemma digit_ne_comma {x : Char} (hx : numbers x = true) : x ≠ ',' := by
  intro h
  subst h
  exact absurd hx (by decide)

lemma validate_dPattern (c : Nat) (input : Str) :
    Pattern.validate (dPattern c) input =
      if (countAndStripFloats c input).2 = [] then .ok else .fail .incompleteMatch := by
  rw [dPattern, validate_single]
  have h1 : countAndStripChars (dGroup c) input = some (countAndStripFloats c input) := by
    simp [countAndStripChars, dGroup]
  rw [CharGroup.validatePartial, h1]
  simp [dGroup]

/-- The before-decimal loop on a digit run followed by a comma: either the
count is reached within the digits (and at that point it stops), or all the
digits and the comma are consumed. -/
lemma cgBefore_split (cnt : Nat) (a rest : Str) (k m : Nat)
    (ha : digitsOnly a) (hm : m ≤ cnt) :
    (∃ s, s ≤ a.length ∧ m + s = cnt ∧
      cgBefore cnt (a ++ ',' :: rest) k m = some (k + s, cnt))
    ∨ (m + a.length < cnt ∧
      cgBefore cnt (a ++ ',' :: rest) k m = some (k + a.length + 1, m + a.length)) := by
  induction a generalizing k m with
  | nil =>
    by_cases h : m = cnt
    · exact Or.inl ⟨0, by omega, by omega, by simp [cgBefore, h]⟩
    · refine Or.inr ⟨?_, by simp [cgBefore, h]⟩
      simp only [List.length_nil]
      omega
  | cons x tl ih =>
    have hx : numbers x = true := ha x (by simp)
    have htl : digitsOnly tl := fun y hy => ha y (by simp [hy])
    by_cases h : m = cnt
    · exact Or.inl ⟨0, by omega, by omega, by simp [cgBefore, h]⟩
    · have hxc : ¬ x = ',' := digit_ne_comma hx
      have hrec := ih (k + 1) (m + 1) htl (by omega)
      rcases hrec with ⟨s, hs1, hs2, hs3⟩ | ⟨hlt, heq⟩
      · refine Or.inl ⟨s + 1, ?_, by omega, ?_⟩
        · simp only [List.length_cons]
          omega
        · rw [List.cons_append, cgBefore, if_neg h, if_neg hxc, if_pos hx]
          rw [hs3]
          have harith : k + 1 + s = k + (s + 1) := by omega
          rw [harith]
      · refine Or.inr ⟨?_, ?_⟩
        · simp only [List.length_cons]
          omega
        · rw [List.cons_append, cgBefore, if_neg h, if_neg hxc, if_pos hx]
          rw [heq]
          simp only [List.length_cons, Option.some.injEq, Prod.mk.injEq]
          omega

/-- The before-decimal loop on a pure digit run: it consumes digits until
the run or the count is exhausted. -/
lemma cgBefore_digits (cnt : Nat) (a : Str) (k m : Nat)
    (ha : digitsOnly a) (hm : m ≤ cnt) :
    cgBefore cnt a k m =
      some (k + min a.length (cnt - m), m + min a.length (cnt - m)) := by
  induction a generalizing k m with
  | nil => simp [cgBefore]
  | cons x tl ih =>
    have hx : numbers x = true := ha x (by simp)
    have htl : digitsOnly tl := fun y hy => ha y (by simp [hy])
    by_cases h : m = cnt
    · subst h
      simp [cgBefore]
    · have hxc : ¬ x = ',' := digit_ne_comma hx
      rw [cgBefore, if_neg h, if_neg hxc, if_pos hx, ih (k + 1) (m + 1) htl (by omega)]
      simp only [List.length_cons, Option.some.injEq, Prod.mk.injEq]
      omega

/-- The after-decimal loop stops at once when the count is already
reached. -/
lemma cgAfter_done (cnt cb : Nat) (b : Str) (k j : Nat) (h : cb + j = cnt) :
    cgAfter cnt cb b k j = (k, j) := by
  cases b with
  | nil => simp [cgAfter]
  | cons x tl => simp [cgAfter, h]

/-- The after-decimal loop on a digit run that fits under the count
consumes it completely. -/
lemma cgAfter_digits (cnt cb : Nat) (b : Str) (k j : Nat)
    (hb : digitsOnly b) (hfit : cb + j + b.length ≤ cnt) :
    cgAfter cnt cb b k j = (k + b.length, j + b.length) := by
  induction b generalizing k j with
  | nil => simp [cgAfter]
  | cons x tl ih =>
    have hx : numbers x = true := hb x (by simp)
    have htl : digitsOnly tl := fun y hy => hb y (by simp [hy])
    have hfit2 : cb + j + tl.length + 1 ≤ cnt := by
      simp only [List.length_cons] at hfit
      omega
    have hne : ¬ cb + j = cnt := by omega
    rw [cgAfter, if_neg hne, if_pos hx, ih (k + 1) (j + 1) htl (by omega)]
    simp only [List.length_cons, Prod.mk.injEq]
    omega

/-- The after-decimal loop over a digit run, a comma and a tail consumes at
most the digits and the comma. -/
lemma cgAfter_digits_comma_le (cnt cb : Nat) (b d : Str) (k j : Nat)
    (hb : digitsOnly b) :
    (cgAfter cnt cb (b ++ ',' :: d) k j).1 ≤ k + b.length + 1 := by
  induction b generalizing k j with
  | nil =>
    by_cases h : cb + j = cnt
    · simp [cgAfter, h]
    · have hc : numbers ',' = false := by decide
      simp [cgAfter, h, hc]
  | cons x tl ih =>
    have hx : numbers x = true := hb x (by simp)
    have htl : digitsOnly tl := fun y hy => hb y (by simp [hy])
    by_cases h : cb + j = cnt
    · rw [List.cons_append, cgAfter, if_pos h]
      show k ≤ k + (x :: tl).length + 1
      omega
    · rw [List.cons_append, cgAfter, if_neg h, if_pos hx]
      have h2 := ih (k + 1) (j + 1) htl
      simp only [List.length_cons]
      omega

lemma length_pos_of_ne_nil {l : Str} (h : l ≠ []) : 1 ≤ l.length := by
  cases l with
  | nil => exact absurd rfl h
  | cons x tl => simp

lemma drop_past_comma (a rest : Str) :
    (a ++ ',' :: rest).drop (a.length + 1) = rest := by
  have h1 : a ++ ',' :: rest = (a ++ [',']) ++ rest := by simp
  have h2 : a.length + 1 = (a ++ [',']).length := by simp
  rw [h1, h2, List.drop_left]

/-- countAndStripFloats accepts a digit run, one comma and a second digit
run whose total digit count fits under the count, consuming everything. -/
lemma csf_success (c : Nat) (a b : Str) (ha : digitsOnly a) (hb : digitsOnly b)
    (hb0 : b ≠ []) (hlen : a.length + b.length ≤ c) :
    countAndStripFloats c (a ++ ',' :: b) = (a.length + b.length, []) := by
  have hb1 : 1 ≤ b.length := length_pos_of_ne_nil hb0
  rcases cgBefore_split c a b 0 0 ha (Nat.zero_le c) with ⟨s, hs1, hs2, hs3⟩ | ⟨hlt, heq⟩
  · exfalso
    omega
  · simp only [countAndStripFloats, heq, Nat.zero_add]
    rw [drop_past_comma a b]
    rw [cgAfter_digits c a.length b (a.length + 1) 0 hb (by omega)]
    simp only [Nat.zero_add]
    have hne2 : ¬ (b.length = 0) := by omega
    simp only [if_neg hne2]
    have hdrop2 : (a ++ ',' :: b).drop (a.length + 1 + b.length) = [] := by
      rw [List.drop_eq_nil_iff]
      simp only [List.length_append, List.length_cons]
      omega
    rw [hdrop2]

/-- countAndStripFloats rejects a pure digit run (no decimal comma): it
returns count zero and the input unchanged. -/
lemma csf_digits (c : Nat) (a : Str) (ha : digitsOnly a) :
    countAndStripFloats c a = (0, a) := by
  have hb := cgBefore_digits c a 0 0 ha (Nat.zero_le c)
  simp only [Nat.zero_add, Nat.sub_zero] at hb
  simp only [countAndStripFloats, hb]
  rcases Nat.le_total a.length c with hle | hle
  · rw [Nat.min_eq_left hle]
    have hdrop : a.drop a.length = [] := by
      rw [List.drop_eq_nil_iff]
    rw [hdrop]
    simp [cgAfter]
  · rw [Nat.min_eq_right hle]
    rw [cgAfter_done c c _ _ 0 (by omega)]
    simp

/-- countAndStripFloats rejects a digit run followed by a bare comma (no
digit after the decimal): it returns count zero and the input unchanged. -/
lemma csf_digits_comma (c : Nat) (a : Str) (ha : digitsOnly a) :
    countAndStripFloats c (a ++ [',']) = (0, a ++ [',']) := by
  rcases cgBefore_split c a [] 0 0 ha (Nat.zero_le c) with ⟨s, hs1, hs2, hs3⟩ | ⟨hlt, heq⟩
  · have hs4 : cgBefore c (a ++ [',']) 0 0 = some (s, c) := by
      simp only [Nat.zero_add] at hs3
      exact hs3
    simp only [countAndStripFloats, hs4]
    rw [cgAfter_done c c _ _ 0 (by omega)]
    simp
  · have heq2 : cgBefore c (a ++ [',']) 0 0 = some (a.length + 1, a.length) := by
      simp only [Nat.zero_add] at heq
      exact heq
    simp only [countAndStripFloats, heq2]
    have hdrop : (a ++ [',']).drop (a.length + 1) = [] := by
      rw [List.drop_eq_nil_iff]
      simp
    rw [hdrop]
    simp [cgAfter]

/-- countAndStripFloats leaves a non-empty remainder on a string with two
commas and digits after the second: it can never consume past the second
comma. -/
lemma csf_two_commas (c : Nat) (a b d : Str) (ha : digitsOnly a) (_ha0 : a ≠ [])
    (hb : digitsOnly b) (hd0 : d ≠ []) :
    (countAndStripFloats c (a ++ ',' :: (b ++ ',' :: d))).2 ≠ [] := by
  have hne : a ++ ',' :: (b ++ ',' :: d) ≠ [] := by simp
  have hd1 : 1 ≤ d.length := length_pos_of_ne_nil hd0
  rcases cgBefore_split c a (b ++ ',' :: d) 0 0 ha (Nat.zero_le c) with
    ⟨s, hs1, hs2, hs3⟩ | ⟨hlt, heq⟩
  · have hs4 : cgBefore c (a ++ ',' :: (b ++ ',' :: d)) 0 0 = some (s, c) := by
      simp only [Nat.zero_add] at hs3
      exact hs3
    simp only [countAndStripFloats, hs4]
    rw [cgAfter_done c c _ _ 0 (by omega)]
    simp
  · have heq2 : cgBefore c (a ++ ',' :: (b ++ ',' :: d)) 0 0 =
        some (a.length + 1, a.length) := by
      simpa using heq
    simp only [countAndStripFloats, heq2]
    rw [drop_past_comma a (b ++ ',' :: d)]
    have hlen2 : (a ++ ',' :: (b ++ ',' :: d)).length =
        a.length + 1 + b.length + 1 + d.length := by
      simp
      omega
    cases hres : cgAfter c a.length (b ++ ',' :: d) (a.length + 1) 0 with
    | mk k2 j2 =>
      have hk2 : k2 ≤ a.length + 1 + b.length + 1 := by
        have hle := cgAfter_digits_comma_le c a.length b d (a.length + 1) 0 hb
        rw [hres] at hle
        omega
      by_cases hj : j2 = 0
      · subst hj
        simp
      · simp only [if_neg hj]
        show (a ++ ',' :: (b ++ ',' :: d)).drop k2 ≠ []
        rw [ne_eq, List.drop_eq_nil_iff]
        omega

/-- Claim C2: for the compiled pattern of a single non-strict d-class group
with count c, Validate succeeds on every string of digits, one comma and at
least one further digit with total digit count at most c; and it fails on
every non-empty digit string without a comma, on digits followed by a bare
comma, and on digits-comma-digits-comma-digits (two commas). -/
theorem C2_d_class_validate (c : Nat) :
    (∀ a b : Str, digitsOnly a → a ≠ [] → digitsOnly b → b ≠ [] →
      a.length + b.length ≤ c →
      Pattern.validate (dPattern c) (a ++ ',' :: b) = .ok)
    ∧ (∀ a : Str, digitsOnly a → a ≠ [] →
      Pattern.validate (dPattern c) a = .fail .incompleteMatch)
    ∧ (∀ a : Str, digitsOnly a → a ≠ [] →
      Pattern.validate (dPattern c) (a ++ [',']) = .fail .incompleteMatch)
    ∧ (∀ a b d : Str, digitsOnly a → a ≠ [] → digitsOnly b → digitsOnly d → d ≠ [] →
      Pattern.validate (dPattern c) (a ++ ',' :: (b ++ ',' :: d)) =
        .fail .incompleteMatch) := by
  refine ⟨?_, ?_, ?_, ?_⟩
  · intro a b ha ha0 hb hb0 hlen
    rw [validate_dPattern, csf_success c a b ha hb hb0 hlen]
    simp
  · intro a ha ha0
    rw [validate_dPattern, csf_digits c a ha]
    simp [ha0]
  · intro a ha ha0
    rw [validate_dPattern, csf_digits_comma c a ha]
    simp
  · intro a b d ha ha0 hb hd hd0
    rw [validate_dPattern]
    simp [csf_two_commas c a b d ha ha0 hb hd0]

/-- Claim C2, witness: with count 3, the amount 1,2 validates while 12, 12
comma and 1,2,3 are all rejected. -/
theorem C2_d_class_validate_witness :
    Pattern.validate (dPattern 3) (strOf "1,2") = .ok
    ∧ Pattern.validate (dPattern 3) (strOf "12") = .fail .incompleteMatch
    ∧ Pattern.validate (dPattern 3) (strOf "12,") = .fail .incompleteMatch
    ∧ Pattern.validate (dPattern 3) (strOf "1,2,3") = .fail .incompleteMatch := by
  have h := C2_d_class_validate 3
  refine ⟨?_, ?_, ?_, ?_⟩
  · exact h.1 (strOf "1") (strOf "2") (by decide) (by decide) (by decide) (by decide)
      (by decide)
  · exact h.2.1 (strOf "12") (by decide) (by decide)
  · exact h.2.2.1 (strOf "12") (by decide) (by decide)
  · exact h.2.2.2 (strOf "1") (strOf "2") (strOf "3") (by decide) (by decide)
      (by decide) (by decide) (by decide)

/-! ### The pattern DSL compiler (internal/pattern: lexer, token parser,
processor)

The Go lexer and token parser are loop-and-goroutine state machines; they
are embedded as step functions driven by explicit fuel.  A none result
means the machine did not stop within the fuel (the Go code would spin) or
hit a run-time panic (an out-of-range peek); for every terminating run a
large enough fuel gives the some result.
-/

/-- unicode.IsDigit on the ASCII range coincides with the numbers class. -/
def goIsDigit (c : Char) : Bool := numbers c

/-- The token types of the pattern lexer, in source order. -/
inductive TokTy where
  | eof
  | literal
  | optLeft
  | optRight
  | lineCountMeta
  | lineCount
  | charCount
  | charCountStrictMeta
  | charSet
  | orMeta
  deriving DecidableEq

/-- A lexed token. -/
structure Tok where
  typ : TokTy
  val : Str
  deriving DecidableEq

/-- The lexer state: input, current position, start of the pending token,
width of the last read rune and the emitted tokens. -/
structure LexSt where
  input : Str
  pos : Nat
  start : Nat
  width : Nat
  toks : List Tok

/-- next: read one rune; at the end of input return none and leave the
state (width included) unchanged, as the Go code does. -/
def lexNext (st : LexSt) : Option Char × LexSt :=
  if st.pos < st.input.length then
    (some (st.input.getD st.pos ' '), { st with pos := st.pos + 1, width := 1 })
  else (none, st)

/-- backup: step back by the width of the last read rune. -/
def lexBackup (st : LexSt) : LexSt := { st with pos := st.pos - st.width }

/-- emit: the text from start to pos becomes a token of the given type. -/
def lexEmit (t : TokTy) (st : LexSt) : LexSt :=
  { st with
    toks := st.toks ++ [{ typ := t, val := (st.input.drop st.start).take (st.pos - st.start) }]
    start := st.pos }

/-- isCharSetSpecifier: membership in the keys of the charSets table. -/
def isCharSetSpecifier (r : Char) : Bool := charSetsKeys.contains r

/-- The states of the pattern lexer. -/
inductive LexMode where
  | toPattern
  | number
  | literalMode (digitsFound : Nat)
  | charSetMode
  | strictMeta
  | countMeta
  | optLeftMode
  | optRightMode
  | orMetaMode
  | stop

/-- One step of the pattern lexer: a single iteration of the current state
function. -/
def lexStep (m : LexMode) (st : LexSt) : LexMode × LexSt :=
  match m with
  | .stop => (.stop, st)
  | .toPattern =>
    match lexNext st with
    | (none, st1) => (.stop, lexEmit .eof st1)
    | (some c, st1) =>
      if goIsDigit c then (.number, lexBackup st1)
      else if c = '(' then (.optLeftMode, lexBackup st1)
      else if c = ')' then (.optRightMode, lexBackup st1)
      else if c = '|' then (.orMetaMode, lexBackup st1)
      else (.literalMode 0, lexBackup st1)
  | .number =>
    match lexNext st with
    | (none, st1) => (.literalMode 0, lexBackup st1)
    | (some c, st1) =>
      if goIsDigit c then (.number, st1)
      else if c = '*' then (.countMeta, lexEmit .lineCount (lexBackup st1))
      else if c = '!' then (.strictMeta, lexEmit .charCount (lexBackup st1))
      else if isCharSetSpecifier c then (.charSetMode, lexEmit .charCount (lexBackup st1))
      else (.literalMode 0, lexBackup st1)
  | .literalMode k =>
    match lexNext st with
    | (none, st1) => (.toPattern, lexEmit .literal st1)
    | (some c, st1) =>
      if c = '(' then (.optLeftMode, lexEmit .literal (lexBackup st1))
      else if c = ')' then (.optRightMode, lexEmit .literal (lexBackup st1))
      else if c = '|' then (.orMetaMode, lexEmit .literal (lexBackup st1))
      else if 0 < k ∧ (c = '!' ∨ isCharSetSpecifier c ∨ c = '*') then
        (.number, lexEmit .literal { st1 with pos := st1.pos - (k + 1) })
      else if goIsDigit c then (.literalMode (k + 1), st1)
      else (.literalMode 0, st1)
  | .countMeta => (.toPattern, lexEmit .lineCountMeta (lexNext st).2)
  | .strictMeta => (.charSetMode, lexEmit .charCountStrictMeta (lexNext st).2)
  | .charSetMode => (.toPattern, lexEmit .charSet (lexNext st).2)
  | .optLeftMode => (.toPattern, lexEmit .optLeft (lexNext st).2)
  | .optRightMode => (.toPattern, lexEmit .optRight (lexNext st).2)
  | .orMetaMode => (.toPattern, lexEmit .orMeta (lexNext st).2)

/-- Run the lexer until it stops, spending one fuel per step. -/
def lexRun : Nat → LexMode → LexSt → Option (List Tok)
  | 0, _, _ => none
  | _ + 1, .stop, st => some st.toks
  | fu + 1, m, st =>
    match lexStep m st with
    | (m2, st2) => lexRun fu m2 st2

/-- lex: tokenize a pattern string. -/
def lexDSL (fuel : Nat) (input : Str) : Option (List Tok) :=
  lexRun fuel .toPattern { input := input, pos := 0, start := 0, width := 0, toks := [] }

/-! The AST of the pattern DSL (internal/pattern/ast).  Node fields that
hold a Go interface value may be nil; they are Option here. -/

/-- ast.Node and its variants. -/
inductive ASTNode where
  | pat (ns : List ASTNode)
  | lit (v : Str)
  | opt (n : Option ASTNode)
  | charGroup (count : Nat) (strict : Bool) (key : Str)
  | lineCount (n : Nat) (node : Option ASTNode)
  | orExpr (l r : Option ASTNode)

/-- The compile-time errors of the token parser. -/
inductive ParseErr where
  | unclosedOptional
  | unexpectedToken (val : Str)
  deriving DecidableEq

/-- The token parser state: the token slice and the current index (-1
before the first next). -/
structure PState where
  toks : List Tok
  idx : Int

/-- The current token: tokens at idx, or the zero-value token (type EOF,
empty value) while idx is still -1. -/
def pcurr (st : PState) : Tok :=
  if 0 ≤ st.idx ∧ st.idx < (st.toks.length : Int) then st.toks.getD st.idx.toNat ⟨.eof, []⟩
  else ⟨.eof, []⟩

/-- next: advance while not at the last token. -/
def pnext (st : PState) : PState :=
  if st.idx < (st.toks.length : Int) - 1 then { st with idx := st.idx + 1 } else st

/-- backup: step back while not at the first token. -/
def pbackup (st : PState) : PState :=
  if 0 < st.idx then { st with idx := st.idx - 1 } else st

/-- peek: the token after the current one; none models the index-out-of-
range panic when the current token is the last. -/
def ppeek (st : PState) : Option Tok :=
  if st.idx + 1 < (st.toks.length : Int) then some (st.toks.getD (st.idx + 1).toNat ⟨.eof, []⟩)
  else none

/-- Go strconv.Atoi with the error ignored (the parser does this): the
value on success, zero otherwise; the int64 overflow bound is not modelled
(all counts in reach are at most a few digits). -/
def atoiIgnoreErr (s : Str) : Nat :=
  if s ≠ [] ∧ s.all goIsDigit then s.foldl (fun acc c => acc * 10 + (c.toNat - 48)) 0 else 0

mutual

/-- parseCharGroup: fold count, strict flag and class key from the
tokens; stops at the charSet token.  On any other token type the Go loop
spins, which burns fuel here. -/
def parseCharGroupGo : Nat → PState → Nat → Bool → Str → Option (ASTNode × PState)
  | 0, _, _, _, _ => none
  | fu + 1, st, count, strict, key =>
    match (pcurr st).typ with
    | .charCount => parseCharGroupGo fu (pnext st) (atoiIgnoreErr (pcurr st).val) strict key
    | .charCountStrictMeta => parseCharGroupGo fu (pnext st) count true key
    | .charSet => some (.charGroup count strict (pcurr st).val, st)
    | _ => parseCharGroupGo fu st count strict key

/-- parseOptional, entered at the opening bracket. -/
def parseOptionalF : Nat → PState → Option ((ASTNode × Option ParseErr) × PState)
  | 0, _ => none
  | fu + 1, st => parseOptionalGo fu st [] false false

/-- The loop of parseOptional, with the accumulated wrapped nodes and the
two flags. -/
def parseOptionalGo :
    Nat → PState → List ASTNode → Bool → Bool → Option ((ASTNode × Option ParseErr) × PState)
  | 0, _, _, _, _ => none
  | fu + 1, st, wrapped, leftMetaFound, lineCountFound =>
    match (pcurr st).typ with
    | .eof => some ((.opt none, some .unclosedOptional), st)
    | .optLeft =>
      if leftMetaFound then
        match parseOptionalF fu st with
        | none => none
        | some ((_, some e), st2) => some ((.opt none, some e), st2)
        | some ((child, none), st2) =>
          parseOptionalGo fu (pnext st2) (wrapped ++ [child]) leftMetaFound lineCountFound
      else parseOptionalGo fu (pnext st) wrapped true lineCountFound
    | .optRight => some ((.opt (some (.pat wrapped)), none), st)
    | .literal =>
      parseOptionalGo fu (pnext st) (wrapped ++ [.lit (pcurr st).val]) leftMetaFound
        lineCountFound
    | .charCount =>
      match parseCharGroupGo fu st 0 false [] with
      | none => none
      | some (cg, st2) =>
        parseOptionalGo fu (pnext st2) (wrapped ++ [cg]) leftMetaFound lineCountFound
    | .lineCount =>
      let wrapped2 :=
        if ¬ lineCountFound ∧ ¬ wrapped.isEmpty then [.lineCount 1 (some (.pat wrapped))]
        else wrapped
      match parseLineCountGo fu st [] 0 false with
      | none => none
      | some ((_, some e), st2) => some ((.opt none, some e), st2)
      | some ((lc, none), st2) =>
        parseOptionalGo fu (pnext st2) (wrapped2 ++ [lc]) leftMetaFound true
    | .orMeta =>
      match parseOrGo fu (.pat wrapped) st [] false with
      | none => none
      | some ((_, some e), st2) => some ((.opt none, some e), st2)
      | some ((orN, none), st2) =>
        parseOptionalGo fu (pnext st2) [orN] leftMetaFound lineCountFound
    | _ => parseOptionalGo fu st wrapped leftMetaFound lineCountFound

/-- The loop of parseOr, with the given left side, the accumulated right
nodes and the own-token flag. -/
def parseOrGo :
    Nat → ASTNode → PState → List ASTNode → Bool → Option ((ASTNode × Option ParseErr) × PState)
  | 0, _, _, _, _ => none
  | fu + 1, left, st, rightNodes, ownTokenFound =>
    match (pcurr st).typ with
    | .optRight => some ((.orExpr (some left) (some (.pat rightNodes)), none), pbackup st)
    | .eof => some ((.orExpr (some left) (some (.pat rightNodes)), none), st)
    | .orMeta =>
      if ownTokenFound then
        match parseOrGo fu (.pat rightNodes) st [] false with
        | none => none
        | some ((_, some e), st2) => some ((.orExpr (some left) none, some e), st2)
        | some ((orN, none), st2) => some ((.orExpr (some left) (some orN), none), st2)
      else parseOrGo fu left (pnext st) rightNodes true
    | .lineCount =>
      if rightNodes.isEmpty then
        match parseLineCountGo fu st [] 0 false with
        | none => none
        | some ((_, some e), st2) => some ((.orExpr (some left) none, some e), st2)
        | some ((lc, none), st2) => some ((.orExpr (some left) (some lc), none), st2)
      else some ((.orExpr (some left) (some (.pat rightNodes)), none), pbackup st)
    | .literal =>
      parseOrGo fu left (pnext st) (rightNodes ++ [.lit (pcurr st).val]) ownTokenFound
    | .optLeft =>
      match parseOptionalF fu st with
      | none => none
      | some ((_, some e), st2) => some ((.orExpr (some left) none, some e), st2)
      | some ((child, none), st2) =>
        parseOrGo fu left (pnext st2) (rightNodes ++ [child]) ownTokenFound
    | .charCount =>
      match parseCharGroupGo fu st 0 false [] with
      | none => none
      | some (cg, st2) => parseOrGo fu left (pnext st2) (rightNodes ++ [cg]) ownTokenFound
    | _ => parseOrGo fu left st rightNodes ownTokenFound

/-- The loop of parseLineCount, with the accumulated wrapped nodes, the
line count and the count-set flag. -/
def parseLineCountGo :
    Nat → PState → List ASTNode → Nat → Bool → Option ((ASTNode × Option ParseErr) × PState)
  | 0, _, _, _, _ => none
  | fu + 1, st, wrapped, count, countSet =>
    match (pcurr st).typ with
    | .eof => some ((.lineCount count (some (.pat wrapped)), none), st)
    | .lineCount =>
      if countSet then some ((.lineCount count (some (.pat wrapped)), none), pbackup st)
      else parseLineCountGo fu (pnext st) wrapped (atoiIgnoreErr (pcurr st).val) true
    | .lineCountMeta => parseLineCountGo fu (pnext st) wrapped count countSet
    | .optLeft =>
      match parseOptionalF fu st with
      | none => none
      | some ((_, some e), st2) => some ((.lineCount count none, some e), st2)
      | some ((child, none), st2) =>
        parseLineCountGo fu (pnext st2) (wrapped ++ [child]) count countSet
    | .charCount =>
      match parseCharGroupGo fu st 0 false [] with
      | none => none
      | some (cg, st2) => parseLineCountGo fu (pnext st2) (wrapped ++ [cg]) count countSet
    | .orMeta =>
      match ppeek st with
      | none => none
      | some nextTok =>
        if nextTok.typ = .lineCount then
          match parseOrGo fu (.lineCount count (some (.pat wrapped))) st [] false with
          | none => none
          | some ((_, some e), st2) =>
            some ((.lineCount count (some (.pat wrapped)), some e), st2)
          | some ((orN, none), st2) => some ((orN, none), st2)
        else
          match parseOrGo fu (.pat wrapped) st [] false with
          | none => none
          | some ((_, some e), st2) => some ((.lineCount count none, some e), st2)
          | some ((orN, none), st2) => parseLineCountGo fu (pnext st2) [orN] count countSet
    | .optRight => some ((.lineCount count (some (.pat wrapped)), none), pbackup st)
    | _ => some ((.lineCount count none, some (.unexpectedToken (pcurr st).val)), st)

/-- The loop of parsePattern, with the accumulated nodes and the
line-count flag. -/
def parsePatternGo :
    Nat → PState → List ASTNode → Bool → Option ((ASTNode × Option ParseErr) × PState)
  | 0, _, _, _ => none
  | fu + 1, st, nodes, lineCountFound =>
    match (pcurr st).typ with
    | .eof => some ((.pat nodes, none), st)
    | .literal =>
      parsePatternGo fu (pnext st) (nodes ++ [.lit (pcurr st).val]) lineCountFound
    | .optLeft =>
      match parseOptionalF fu st with
      | none => none
      | some ((_, some e), st2) => some ((.pat nodes, some e), st2)
      | some ((child, none), st2) => parsePatternGo fu (pnext st2) (nodes ++ [child]) lineCountFound
    | .charCount =>
      match parseCharGroupGo fu st 0 false [] with
      | none => none
      | some (cg, st2) => parsePatternGo fu (pnext st2) (nodes ++ [cg]) lineCountFound
    | .lineCount =>
      let nodes2 :=
        if ¬ lineCountFound ∧ ¬ nodes.isEmpty then [ASTNode.lineCount 1 (some (.pat nodes))]
        else nodes
      match parseLineCountGo fu st [] 0 false with
      | none => none
      | some ((_, some e), st2) => some ((.pat nodes2, some e), st2)
      | some ((lc, none), st2) => parsePatternGo fu (pnext st2) (nodes2 ++ [lc]) true
    | .orMeta =>
      match parseOrGo fu (.pat nodes) st [] false with
      | none => none
      | some ((_, some e), st2) => some ((.pat nodes, some e), st2)
      | some ((orN, none), st2) => parsePatternGo fu (pnext st2) [orN] lineCountFound
    | _ => parsePatternGo fu st nodes lineCountFound

end

/-- parse: collect the tokens, position before the first, advance once and
run parsePattern. -/
def parseToks (fuel : Nat) (toks : List Tok) : Option (ASTNode × Option ParseErr) :=
  match parsePatternGo fuel (pnext { toks := toks, idx := -1 }) [] false with
  | none => none
  | some (r, _) => some r

mutual

/-- astNodeToPartialValidator: compile one AST node at the given current
line.  A nil child makes the processor itself panic (none): Go calls
Kind() on a nil interface value. -/
def processNode : ASTNode → Int → Option PartialValidator
  | .lit v, _ => some (Literal.validatePartial v)
  | .opt none, _ => none
  | .opt (some n), cl =>
    match processNode n cl with
    | none => none
    | some vp => some (Optional.validatePartial vp)
  | .charGroup count strict key, _ =>
    some (CharGroup.validatePartial
      { charSetKey := key, charSet := charSets key, count := count, countStrict := strict })
  | .lineCount _ none, _ => none
  | .lineCount n (some nd), cl =>
    match processNode nd (cl + n) with
    | none => none
    | some vp =>
      some (LinePattern.validatePartial
        (fun line => decide (cl ≤ line) && decide (line < cl + n)) vp)
  | .orExpr none _, _ => none
  | .orExpr _ none, _ => none
  | .orExpr (some ln) (some rn), cl =>
    match processNode ln cl, processNode rn cl with
    | some lv, some rv => some (OrPattern.validatePartial lv rv)
    | _, _ => none
  | .pat ns, cl =>
    match processList ns cl with
    | none => none
    | some ps => some (Pattern.validatePartial ps)

/-- astPatternToPattern: compile each node of a pattern. -/
def processList : List ASTNode → Int → Option (List PartialValidator)
  | [], _ => some []
  | n :: ns, cl =>
    match processNode n cl, processList ns cl with
    | some v, some vs => some (v :: vs)
    | _, _ => none

end

/-- Parse: lex, parse and process a pattern string.  The outer none is a
non-terminating or panicking run; the inner Except carries the compile
error. -/
def ParseDSL (fuel : Nat) (input : Str) : Option (Except ParseErr (List PartialValidator)) :=
  match lexDSL fuel input with
  | none => none
  | some toks =>
    match parseToks fuel toks with
    | none => none
    | some (_, some e) => some (.error e)
    | some (nd, none) =>
      match nd with
      | .pat ns =>
        match processList ns 1 with
        | none => none
        | some ps => some (.ok ps)
      | _ => none

/-! ### Claim C10: an unknown class key compiles to a nil character set -/

/-- Claim C10: the pattern 1!z (count, strict marker, then a letter outside
the five class keys) compiles without error into a single character group
whose character-set function is absent (none); the charSets table yields
none for every key outside n, a, c, x, d; validating any non-empty input
against a group with an absent set and a positive count applies the absent
function and faults (panic) instead of returning a typed error; and
validating the empty input returns the strict count-short error. -/
theorem C10_unknown_class_group :
    ParseDSL 32 (strOf "1!z") =
      some (.ok [CharGroup.validatePartial
        { charSetKey := strOf "z", charSet := none, count := 1, countStrict := true }])
    ∧ (∀ ch : Char, ch ∉ charSetsKeys → charSets [ch] = none)
    ∧ (∀ (key : Str) (cnt : Nat) (strict : Bool) (input : Str) (cl : Int),
        key ≠ strOf "d" → input ≠ [] → 0 < cnt →
        CharGroup.validatePartial
          { charSetKey := key, charSet := none, count := cnt, countStrict := strict } input cl
          = .panic)
    ∧ Pattern.validate
        [CharGroup.validatePartial
          { charSetKey := strOf "z", charSet := none, count := 1, countStrict := true }] []
        = .fail (.inputInvalid (.countShort 1 0 (strOf "z"))) := by
  refine ⟨by rfl, ?_, ?_, by decide⟩
  · intro ch h
    have h1 : ch ≠ 'n' := fun hh => h (by simp [charSetsKeys, hh])
    have h2 : ch ≠ 'a' := fun hh => h (by simp [charSetsKeys, hh])
    have h3 : ch ≠ 'c' := fun hh => h (by simp [charSetsKeys, hh])
    have h4 : ch ≠ 'x' := fun hh => h (by simp [charSetsKeys, hh])
    have h5 : ch ≠ 'd' := fun hh => h (by simp [charSetsKeys, hh])
    rw [charSets,
      if_neg (show ¬ ([ch] = strOf "n") from fun hh => h1 (List.cons_eq_cons.mp hh).1),
      if_neg (show ¬ ([ch] = strOf "a") from fun hh => h2 (List.cons_eq_cons.mp hh).1),
      if_neg (show ¬ ([ch] = strOf "c") from fun hh => h3 (List.cons_eq_cons.mp hh).1),
      if_neg (show ¬ ([ch] = strOf "x") from fun hh => h4 (List.cons_eq_cons.mp hh).1),
      if_neg (show ¬ ([ch] = strOf "d") from fun hh => h5 (List.cons_eq_cons.mp hh).1)]
  · intro key cnt strict input cl hk hne hcnt
    cases input with
    | nil => exact absurd rfl hne
    | cons x rest =>
      have hz : ¬ (0 = cnt) := by omega
      simp only [CharGroup.validatePartial, countAndStripChars, if_neg hk, cgCountChars,
        if_neg hz]

/-- Claim C10, witness: the key z is outside the table, and the group
compiled from 1!z faults on the concrete input A. -/
theorem C10_unknown_class_group_witness :
    charSets (strOf "z") = none
    ∧ CharGroup.validatePartial
        { charSetKey := strOf "z", charSet := none, count := 1, countStrict := true }
        (strOf "A") 1 = .panic := by
  have h := C10_unknown_class_group
  exact ⟨h.2.1 'z' (by decide),
    h.2.2.1 (strOf "z") 1 true (strOf "A") 1 (by decide) (by decide) (by decide)⟩

end MTPattern

namespace MTMessage

/-! ### The message block parser (internal/message)

Block, sub-block and message records, the raw reconstruction of
blocksToMessage, and the field-accumulation part of parser.run over the
lexer item stream.  Go map of string to string slice is an association
list here; only lookup and update are used.
-/

/-- The body mapping: tag to list of field values. -/
def Fields := List (Str × List Str)

/-- Map lookup; a missing key reads as the nil slice. -/
def fieldsGet (f : Fields) (k : Str) : List Str :=
  match f with
  | [] => []
  | (k2, vs) :: rest => if k2 = k then vs else fieldsGet rest k

/-- Map update. -/
def fieldsSet (f : Fields) (k : Str) (vs : List Str) : Fields :=
  match f with
  | [] => [(k, vs)]
  | (k2, vs2) :: rest => if k2 = k then (k, vs) :: rest else (k2, vs2) :: fieldsSet rest k vs

/-- The itemFieldContent update: create the entry when absent, then append
the value. -/
def fieldsAppend (f : Fields) (k : Str) (v : Str) : Fields :=
  fieldsSet f k (fieldsGet f k ++ [v])

lemma fieldsGet_set_same (f : Fields) (k : Str) (vs : List Str) :
    fieldsGet (fieldsSet f k vs) k = vs := by
  induction f with
  | nil => simp [fieldsGet, fieldsSet]
  | cons p rest ih =>
    obtain ⟨pk, pv⟩ := p
    by_cases h : pk = k
    · simp [fieldsGet, fieldsSet, h]
    · simp [fieldsGet, fieldsSet, h, ih]

lemma fieldsGet_set_other (f : Fields) (k k2 : Str) (vs : List Str) (h : k2 ≠ k) :
    fieldsGet (fieldsSet f k vs) k2 = fieldsGet f k2 := by
  have hks : ¬ (k = k2) := fun hh => h hh.symm
  induction f with
  | nil => simp [fieldsGet, fieldsSet, hks]
  | cons p rest ih =>
    obtain ⟨pk, pv⟩ := p
    by_cases h1 : pk = k
    · have h3 : ¬ (pk = k2) := by rw [h1]; exact hks
      simp [fieldsGet, fieldsSet, h1, hks, h3]
    · by_cases h2 : pk = k2 <;> simp [fieldsGet, fieldsSet, h1, h2, h, ih]

/-- A sub block: label and content. -/
structure SubBlock where
  label : Str := []
  content : Str := []

/-- A block: label, content, body fields and sub blocks. -/
structure MBlock where
  label : Str := []
  content : Str := []
  fields : Fields := []
  blocks : List SubBlock := []

/-- A generic message. -/
structure MMessage where
  line : Int := 0
  raw : Str := []
  basicHeader : MBlock := {}
  appHeader : MBlock := {}
  usrHeader : MBlock := {}
  body : Fields := []
  trailers : MBlock := {}

/-- The reconstruction of one block: left brace, label, colon, content,
right brace. -/
def wrapBlock (label content : Str) : Str :=
  '\x7b' :: (label ++ ':' :: (content ++ ['\x7d']))

/-- The loop of blocksToMessage: each block overwrites its label slot and
its piece of the raw string; the five pieces are concatenated in canonical
order at the end. -/
def b2mGo : List MBlock → MMessage → Str → Str → Str → Str → Str → MMessage
  | [], m, rh, ra, ru, rb, rt => { m with raw := rh ++ ra ++ ru ++ rb ++ rt }
  | b :: rest, m, rh, ra, ru, rb, rt =>
    if b.label = strOf "1" then
      b2mGo rest { m with basicHeader := b } (wrapBlock (strOf "1") b.content) ra ru rb rt
    else if b.label = strOf "2" then
      b2mGo rest { m with appHeader := b } rh (wrapBlock (strOf "2") b.content) ru rb rt
    else if b.label = strOf "3" then
      b2mGo rest { m with usrHeader := b } rh ra (wrapBlock (strOf "3") b.content) rb rt
    else if b.label = strOf "4" then
      b2mGo rest { m with body := b.fields } rh ra ru (wrapBlock (strOf "4") b.content) rt
    else if b.label = strOf "5" then
      b2mGo rest { m with trailers := b } rh ra ru rb (wrapBlock (strOf "5") b.content)
    else b2mGo rest m rh ra ru rb rt

/-- parser.blocksToMessage. -/
def blocksToMessage (blocks : List MBlock) (line : Int) : MMessage :=
  b2mGo blocks { line := line } [] [] [] [] []

/-- The last block carrying the given label, if any: with the overwriting
loop of the source, the final slot for a label holds its last occurrence. -/
def lastBlockWith (l : Str) (blocks : List MBlock) : Option MBlock :=
  (blocks.filter (fun b => decide (b.label = l))).getLast?

/-- The reconstruction of the block with label l, or the given default when
no such block occurred. -/
def canonicalPart (l : Str) (blocks : List MBlock) (dflt : Str) : Str :=
  match lastBlockWith l blocks with
  | none => dflt
  | some b => wrapBlock l b.content

/-- The raw string the spec describes: the reconstructed blocks 1 to 5 in
canonical label order, each present only if it occurred. -/
def canonicalRaw (blocks : List MBlock) : Str :=
  canonicalPart (strOf "1") blocks [] ++ canonicalPart (strOf "2") blocks [] ++
  canonicalPart (strOf "3") blocks [] ++ canonicalPart (strOf "4") blocks [] ++
  canonicalPart (strOf "5") blocks []

lemma canonicalPart_cons (l : Str) (b : MBlock) (rest : List MBlock) (dflt : Str) :
    canonicalPart l (b :: rest) dflt =
      if b.label = l then canonicalPart l rest (wrapBlock l b.content)
      else canonicalPart l rest dflt := by
  by_cases h : b.label = l
  · rw [if_pos h]
    unfold canonicalPart lastBlockWith
    rw [List.filter_cons_of_pos (by simp [h])]
    cases hf : List.filter (fun bb => decide (bb.label = l)) rest with
    | nil => simp [h]
    | cons c cs =>
      have hx : (c :: cs).getLast? = some ((c :: cs).getLast (by simp)) :=
        List.getLast?_eq_getLast _ _
      rw [List.getLast?_cons_cons, hx]
  · rw [if_neg h]
    unfold canonicalPart lastBlockWith
    rw [List.filter_cons_of_neg (by simp [h])]

lemma b2mGo_raw (blocks : List MBlock) (m : MMessage) (rh ra ru rb rt : Str) :
    (b2mGo blocks m rh ra ru rb rt).raw =
      canonicalPart (strOf "1") blocks rh ++ canonicalPart (strOf "2") blocks ra ++
      canonicalPart (strOf "3") blocks ru ++ canonicalPart (strOf "4") blocks rb ++
      canonicalPart (strOf "5") blocks rt := by
  induction blocks generalizing m rh ra ru rb rt with
  | nil => simp [b2mGo, canonicalPart, lastBlockWith]
  | cons b rest ih =>
    rw [canonicalPart_cons, canonicalPart_cons, canonicalPart_cons, canonicalPart_cons,
      canonicalPart_cons]
    by_cases h1 : b.label = strOf "1"
    · have h2 : ¬ b.label = strOf "2" := by rw [h1]; decide
      have h3 : ¬ b.label = strOf "3" := by rw [h1]; decide
      have h4 : ¬ b.label = strOf "4" := by rw [h1]; decide
      have h5 : ¬ b.label = strOf "5" := by rw [h1]; decide
      simp only [b2mGo, if_pos h1, if_neg h2, if_neg h3, if_neg h4, if_neg h5]
      exact ih _ _ _ _ _ _
    · by_cases h2 : b.label = strOf "2"
      · have h3 : ¬ b.label = strOf "3" := by rw [h2]; decide
        have h4 : ¬ b.label = strOf "4" := by rw [h2]; decide
        have h5 : ¬ b.label = strOf "5" := by rw [h2]; decide
        simp only [b2mGo, if_neg h1, if_pos h2, if_neg h3, if_neg h4, if_neg h5]
        exact ih _ _ _ _ _ _
      · by_cases h3 : b.label = strOf "3"
        · have h4 : ¬ b.label = strOf "4" := by rw [h3]; decide
          have h5 : ¬ b.label = strOf "5" := by rw [h3]; decide
          simp only [b2mGo, if_neg h1, if_neg h2, if_pos h3, if_neg h4, if_neg h5]
          exact ih _ _ _ _ _ _
        · by_cases h4 : b.label = strOf "4"
          · have h5 : ¬ b.label = strOf "5" := by rw [h4]; decide
            simp only [b2mGo, if_neg h1, if_neg h2, if_neg h3, if_pos h4, if_neg h5]
            exact ih _ _ _ _ _ _
          · by_cases h5 : b.label = strOf "5"
            · simp only [b2mGo, if_neg h1, if_neg h2, if_neg h3, if_neg h4, if_pos h5]
              exact ih _ _ _ _ _ _
            · simp only [b2mGo, if_neg h1, if_neg h2, if_neg h3, if_neg h4, if_neg h5]
              exact ih _ _ _ _ _ _

/-- Claim C3: for every generic message assembled from a slice of parsed
blocks, the Raw field equals the concatenation of the reconstructed blocks
1 to 5 in canonical label order, each present only if the corresponding
block occurred (its last occurrence when a label repeats), regardless of
the order the blocks appeared in. -/
theorem C3_blocksToMessage_raw (blocks : List MBlock) (line : Int) :
    (blocksToMessage blocks line).raw = canonicalRaw blocks := by
  rw [blocksToMessage, b2mGo_raw]
  rfl

/-! ### The field-accumulation machine of parser.run (claims C5, C7) -/

/-- The item types the message lexer produces, in source order. -/
inductive ItemTy where
  | error
  | eof
  | ignore
  | blockLeftMeta
  | blockLabelMeta
  | blockLabel
  | blockContent
  | blockRightMeta
  | subBlockLeftMeta
  | subBlockLabelMeta
  | subBlockLabel
  | subBlockContent
  | subBlockRightMeta
  | tagLeftMeta
  | tagContent
  | tagRightMeta
  | fieldContent
  deriving DecidableEq

/-- A lexer item. -/
structure MItem where
  typ : ItemTy
  val : Str
  line : Int := 1

/-- unicode.IsSpace on the Latin-1 range. -/
def goIsSpace (c : Char) : Bool :=
  c == ' ' || c == '\t' || c == '\n' || c == '\x0b' || c == '\x0c' || c == '\r' ||
  c == '\x85' || c == '\xa0'

/-- strings.TrimSpace: drop leading and trailing white space. -/
def goTrimSpace (s : Str) : Str :=
  ((s.dropWhile goIsSpace).reverse.dropWhile goIsSpace).reverse

/-- The state of parser.run that accumulates one block: the current block,
the current sub block and the current tag.  The blocks, messages and
errors the parser streams out do not feed back into this state. -/
structure BState where
  currBlock : MBlock := {}
  currSubBlock : SubBlock := {}
  currTag : Str := []

/-- One switch step of parser.run over this state, case for case. -/
def runStateStep (it : MItem) (st : BState) : BState :=
  match it.typ with
  | .blockLabel => { st with currBlock := { label := it.val } }
  | .blockContent => { st with currBlock := { st.currBlock with content := it.val } }
  | .subBlockLeftMeta => { st with currSubBlock := {} }
  | .subBlockLabel => { st with currSubBlock := { st.currSubBlock with label := it.val } }
  | .subBlockContent => { st with currSubBlock := { st.currSubBlock with content := it.val } }
  | .subBlockRightMeta =>
    { st with currBlock :=
        { st.currBlock with blocks := st.currBlock.blocks ++ [st.currSubBlock] } }
  | .tagContent => { st with currTag := it.val }
  | .fieldContent =>
    { st with
      currBlock := { st.currBlock with
        fields := fieldsAppend st.currBlock.fields st.currTag (goTrimSpace it.val) }
      currTag := [] }
  | _ => st

/-- parser.run driven over a list of items: EOF stops, an error stops only
under StopOnError, everything else steps the block state. -/
def runStateItems (stop : Bool) : List MItem → BState → BState
  | [], st => st
  | it :: rest, st =>
    match it.typ with
    | .eof => st
    | .error => if stop then st else runStateItems stop rest st
    | _ => runStateItems stop rest (runStateStep it st)

/-- The wire reading of a body item stream: each field value, trimmed as
stored, paired with the tag of the closest preceding tag item. -/
def taggedValues : List MItem → Str → List (Str × Str)
  | [], _ => []
  | it :: rest, currTag =>
    match it.typ with
    | .tagContent => taggedValues rest it.val
    | .fieldContent => (currTag, goTrimSpace it.val) :: taggedValues rest []
    | _ => taggedValues rest currTag

/-- The values of one tag, in wire order. -/
def valuesFor (tag : Str) (pairs : List (Str × Str)) : List Str :=
  (pairs.filter (fun p => decide (p.1 = tag))).map Prod.snd

lemma fieldsGet_append_same (f : Fields) (k : Str) (v : Str) :
    fieldsGet (fieldsAppend f k v) k = fieldsGet f k ++ [v] :=
  fieldsGet_set_same f k (fieldsGet f k ++ [v])

lemma fieldsGet_append_other (f : Fields) (k k2 : Str) (v : Str) (h : k2 ≠ k) :
    fieldsGet (fieldsAppend f k v) k2 = fieldsGet f k2 :=
  fieldsGet_set_other f k k2 (fieldsGet f k ++ [v]) h

/-- Claim C5: over any run of body items (no new block label, no EOF and no
error item in the span), the list stored under a tag grows by exactly the
trimmed values of that tag in wire order: repetitions are preserved, none
dropped or reordered. -/
theorem C5_field_wire_order (stop : Bool) (items : List MItem) (st : BState) (tag : Str)
    (h : ∀ it ∈ items, it.typ ≠ .blockLabel ∧ it.typ ≠ .eof ∧ it.typ ≠ .error) :
    fieldsGet (runStateItems stop items st).currBlock.fields tag =
      fieldsGet st.currBlock.fields tag ++ valuesFor tag (taggedValues items st.currTag) := by
  induction items generalizing st with
  | nil => simp [runStateItems, taggedValues, valuesFor]
  | cons it rest ih =>
    have hit := h it (by simp)
    have hrest : ∀ x ∈ rest, x.typ ≠ .blockLabel ∧ x.typ ≠ .eof ∧ x.typ ≠ .error :=
      fun x hx => h x (by simp [hx])
    obtain ⟨hbl, heo, her⟩ := hit
    cases hty : it.typ with
    | error => exact absurd hty her
    | eof => exact absurd hty heo
    | blockLabel => exact absurd hty hbl
    | tagContent =>
      rw [runStateItems]
      simp only [hty]
      rw [ih _ hrest, taggedValues]
      simp only [hty, runStateStep]
    | fieldContent =>
      rw [runStateItems]
      simp only [hty]
      rw [ih _ hrest, taggedValues]
      simp only [hty, runStateStep]
      by_cases htag : st.currTag = tag
      · rw [htag, fieldsGet_append_same]
        simp [valuesFor, List.filter_cons, List.append_assoc]
      · rw [fieldsGet_append_other _ _ _ _ (fun hh => htag hh.symm)]
        simp [valuesFor, List.filter_cons, htag]
    | ignore =>
      rw [runStateItems]
      simp only [hty]
      rw [ih _ hrest, taggedValues]
      simp only [hty, runStateStep]
    | blockLeftMeta =>
      rw [runStateItems]
      simp only [hty]
      rw [ih _ hrest, taggedValues]
      simp only [hty, runStateStep]
    | blockLabelMeta =>
      rw [runStateItems]
      simp only [hty]
      rw [ih _ hrest, taggedValues]
      simp only [hty, runStateStep]
    | blockContent =>
      rw [runStateItems]
      simp only [hty]
      rw [ih _ hrest, taggedValues]
      simp only [hty, runStateStep]
    | blockRightMeta =>
      rw [runStateItems]
      simp only [hty]
      rw [ih _ hrest, taggedValues]
      simp only [hty, runStateStep]
    | subBlockLeftMeta =>
      rw [runStateItems]
      simp only [hty]
      rw [ih _ hrest, taggedValues]
      simp only [hty, runStateStep]
    | subBlockLabelMeta =>
      rw [runStateItems]
      simp only [hty]
      rw [ih _ hrest, taggedValues]
      simp only [hty, runStateStep]
    | subBlockLabel =>
      rw [runStateItems]
      simp only [hty]
      rw [ih _ hrest, taggedValues]
      simp only [hty, runStateStep]
    | subBlockContent =>
      rw [runStateItems]
      simp only [hty]
      rw [ih _ hrest, taggedValues]
      simp only [hty, runStateStep]
    | subBlockRightMeta =>
      rw [runStateItems]
      simp only [hty]
      rw [ih _ hrest, taggedValues]
      simp only [hty, runStateStep]
    | tagLeftMeta =>
      rw [runStateItems]
      simp only [hty]
      rw [ih _ hrest, taggedValues]
      simp only [hty, runStateStep]
    | tagRightMeta =>
      rw [runStateItems]
      simp only [hty]
      rw [ih _ hrest, taggedValues]
      simp only [hty, runStateStep]

/-- Claim C5, witness: two values for tag 61 with another tag in between
are stored under 61 in wire order. -/
theorem C5_field_wire_order_witness :
    fieldsGet (runStateItems false
      [{ typ := .tagContent, val := strOf "61" },
       { typ := .fieldContent, val := strOf "A1\x0a" },
       { typ := .tagContent, val := strOf "86" },
       { typ := .fieldContent, val := strOf "X\x0a" },
       { typ := .tagContent, val := strOf "61" },
       { typ := .fieldContent, val := strOf "A2\x0a" }] {}).currBlock.fields (strOf "61")
      = [strOf "A1", strOf "A2"] := by
  have h := C5_field_wire_order false
    [{ typ := .tagContent, val := strOf "61" },
     { typ := .fieldContent, val := strOf "A1\x0a" },
     { typ := .tagContent, val := strOf "86" },
     { typ := .fieldContent, val := strOf "X\x0a" },
     { typ := .tagContent, val := strOf "61" },
     { typ := .fieldContent, val := strOf "A2\x0a" }] {} (strOf "61") (by decide)
  rw [h]
  decide

/-! ### Claim C7: trimming of body field values -/

/-- The trimming the claim describes: remove only the one trailing newline,
nothing else. -/
def stripTrailingNewline (v : Str) : Str :=
  if v.getLast? = some '\n' then v.dropLast else v

/-- Claim C7, counterexample: for the wire value abc-space-newline the
claim predicts the stored value abc-space (only the trailing newline
removed); the parser stores TrimSpace of the value, abc, removing the
trailing space as well. -/
theorem C7_whitespace_counterexample :
    stripTrailingNewline (strOf "abc \x0a") = strOf "abc "
    ∧ fieldsGet (runStateItems false
        [{ typ := .tagContent, val := strOf "20" },
         { typ := .fieldContent, val := strOf "abc \x0a" }] {}).currBlock.fields (strOf "20")
      = [strOf "abc"]
    ∧ (strOf "abc" : Str) ≠ strOf "abc " := by
  refine ⟨by decide, by decide, by decide⟩

lemma head?_dropWhile_false (p : Char → Bool) (l : Str) :
    ∀ c, (l.dropWhile p).head? = some c → p c = false := by
  induction l with
  | nil =>
    intro c hc
    simp [List.dropWhile] at hc
  | cons x xs ih =>
    intro c hc
    rw [List.dropWhile_cons] at hc
    by_cases hx : p x
    · rw [if_pos hx] at hc
      exact ih c hc
    · rw [if_neg hx] at hc
      simp only [List.head?_cons, Option.some.injEq] at hc
      rw [← hc]
      exact Bool.not_eq_true (p x) |>.mp hx

lemma getLast?_append_right (t w : Str) (h : w ≠ []) :
    (t ++ w).getLast? = w.getLast? := by
  induction t with
  | nil => rfl
  | cons a t2 ih =>
    cases hw : t2 ++ w with
    | nil =>
      exact absurd (List.append_eq_nil.mp hw).2 h
    | cons b bs =>
      rw [List.cons_append, hw, List.getLast?_cons_cons, ← hw, ih]

lemma getLast?_dropWhile (p : Char → Bool) (l : Str) :
    ∀ c, (l.dropWhile p).getLast? = some c → l.getLast? = some c := by
  intro c hc
  obtain ⟨t, ht⟩ := List.dropWhile_suffix (l := l) (p := p)
  rw [← ht, getLast?_append_right]
  · exact hc
  · intro hnil
    rw [hnil] at hc
    simp at hc

lemma trim_decomp (v : Str) :
    v = v.takeWhile goIsSpace ++ goTrimSpace v ++
        ((v.dropWhile goIsSpace).reverse.takeWhile goIsSpace).reverse := by
  conv_lhs => rw [← List.takeWhile_append_dropWhile (p := goIsSpace) (l := v)]
  rw [List.append_assoc]
  congr 1
  conv_lhs => rw [← List.reverse_reverse (List.dropWhile goIsSpace v),
    ← List.takeWhile_append_dropWhile (p := goIsSpace)
      (l := (List.dropWhile goIsSpace v).reverse)]
  rw [List.reverse_append]
  rfl

/-- Claim C7, amended: the value stored for a tag is TrimSpace of the wire
value: all leading and trailing white space (not only one trailing
newline) is removed, and the interior is preserved: the wire value splits
as leading white space, then the stored value (which neither starts nor
ends in white space), then trailing white space. -/
theorem C7_whitespace_amended (st : BState) (t v : Str) :
    fieldsGet (runStateItems false
        [{ typ := .tagContent, val := t }, { typ := .fieldContent, val := v }]
        st).currBlock.fields t
      = fieldsGet st.currBlock.fields t ++ [goTrimSpace v]
    ∧ (∃ pre post, v = pre ++ goTrimSpace v ++ post
        ∧ (∀ c ∈ pre, goIsSpace c = true) ∧ (∀ c ∈ post, goIsSpace c = true))
    ∧ (∀ c, (goTrimSpace v).head? = some c → goIsSpace c = false)
    ∧ (∀ c, (goTrimSpace v).getLast? = some c → goIsSpace c = false) := by
  refine ⟨?_, ?_, ?_, ?_⟩
  · show fieldsGet (fieldsAppend st.currBlock.fields t (goTrimSpace v)) t = _
    exact fieldsGet_append_same _ _ _
  · refine ⟨v.takeWhile goIsSpace,
      ((v.dropWhile goIsSpace).reverse.takeWhile goIsSpace).reverse,
      trim_decomp v, ?_, ?_⟩
    · intro c hc
      exact List.mem_takeWhile_imp hc
    · intro c hc
      exact List.mem_takeWhile_imp (List.mem_reverse.mp hc)
  · intro c hc
    rw [goTrimSpace, List.head?_reverse] at hc
    have h2 := getLast?_dropWhile goIsSpace (v.dropWhile goIsSpace).reverse c hc
    rw [List.getLast?_reverse] at h2
    exact head?_dropWhile_false goIsSpace v c h2
  · intro c hc
    rw [goTrimSpace, List.getLast?_reverse] at hc
    exact head?_dropWhile_false goIsSpace (v.dropWhile goIsSpace).reverse c hc

/-- Claim C7, witness for the amended claim: for the wire value with
leading and trailing space around a-space-b, the machine stores a-space-b,
which is an interior-preserving split of the wire value. -/
theorem C7_whitespace_amended_witness :
    fieldsGet (runStateItems false
        [{ typ := .tagContent, val := strOf "20" },
         { typ := .fieldContent, val := strOf " a b \x0a" }] {}).currBlock.fields (strOf "20")
      = [strOf "a b"] := by
  have h := (C7_whitespace_amended {} (strOf "20") (strOf " a b \x0a")).1
  rw [h]
  decide

end MTMessage

namespace MT

/-! ### Header decoders (package mt)

The Go decoders return a partially filled record together with an error;
both are kept.  Strings are character lists; the inputs in reach are
ASCII, where Go byte slicing agrees with character positions.
-/

/-- ApplicationID with its three values F, A, L. -/
inductive ApplicationID where
  | financial
  | general
  | login
  deriving DecidableEq

/-- ApplicationID.String / RawString. -/
def ApplicationID.rawString : ApplicationID → Str
  | .general => strOf "A"
  | .login => strOf "L"
  | .financial => strOf "F"

/-- ServiceID with its two values 01, 21. -/
inductive ServiceID where
  | fingpa
  | acknack
  deriving DecidableEq

/-- ServiceID.String / RawString. -/
def ServiceID.rawString : ServiceID → Str
  | .acknack => strOf "21"
  | .fingpa => strOf "01"

/-- Priority; the zero value is Normal. -/
inductive Priority where
  | normal
  | system
  | urgent
  deriving DecidableEq

/-- DeliveryMonitor; the zero value is NonDelivery. -/
inductive DeliveryMonitor where
  | nonDelivery
  | delivery
  | both
  deriving DecidableEq

/-- The decoder errors, by kind and offending slice. -/
inductive MTErr where
  | invalidLength (n : Nat)
  | unknownApplicationID (s : Str)
  | unknownServiceID (s : Str)
  | unknownPriority (s : Str)
  | invalidDeliveryMonitor (s : Str)
  | invalidPriorityOrDeliveryMonitor (s : Str)
  | invalidObsolescence (s : Str)
  deriving DecidableEq

/-- Go slicing s[a:b]. -/
def slice (s : Str) (a b : Nat) : Str := (s.drop a).take (b - a)

/-- The raw reconstruction of a header block. -/
def blockRaw (label content : Str) : Str :=
  '\x7b' :: (label ++ ':' :: (content ++ ['\x7d']))

/-- The basic header record. -/
structure BasicHeader where
  raw : Str := []
  appID : ApplicationID := .financial
  serviceID : ServiceID := .fingpa
  sessionNumber : Str := []
  sequenceNumber : Str := []
  logicalTerminalAddress : Str := []

/-- basicHeaderBlockToBasicHeader: length must be exactly 25, slice [0:1]
selects the application id, slice [1:3] the service id, and the remaining
slices fill the address and numbers.  The two switch statements are the
two nested matches. -/
def basicHeaderBlockToBasicHeader (content : Str) : BasicHeader × Option MTErr :=
  let bh0 : BasicHeader := { raw := blockRaw (strOf "1") content }
  if content.length ≠ 25 then (bh0, some (.invalidLength content.length))
  else
    match (if slice content 0 1 = strOf "F" then some ApplicationID.financial
           else if slice content 0 1 = strOf "A" then some ApplicationID.general
           else if slice content 0 1 = strOf "L" then some ApplicationID.login
           else none) with
    | none => (bh0, some (.unknownApplicationID (slice content 0 1)))
    | some app =>
      let bh1 := { bh0 with appID := app }
      match (if slice content 1 3 = strOf "01" then some ServiceID.fingpa
             else if slice content 1 3 = strOf "21" then some ServiceID.acknack
             else none) with
      | none => (bh1, some (.unknownServiceID (slice content 1 3)))
      | some svc =>
        ({ bh1 with
            serviceID := svc
            logicalTerminalAddress := slice content 3 15
            sessionNumber := slice content 15 19
            sequenceNumber := content.drop 19 }, none)

/-- Claim C4: the basic header decode succeeds exactly when the content is
25 characters with application id F, A or L and service id 01 or 21;
any other input fails with an error; and on success the decoded
application and service ids print back as the input slices, and the
address, session and sequence fields are the documented slices. -/
theorem C4_basic_header (content : Str) :
    ((basicHeaderBlockToBasicHeader content).2 = none ↔
      (content.length = 25
        ∧ (slice content 0 1 = strOf "F" ∨ slice content 0 1 = strOf "A"
            ∨ slice content 0 1 = strOf "L")
        ∧ (slice content 1 3 = strOf "01" ∨ slice content 1 3 = strOf "21")))
    ∧ (∀ bh, basicHeaderBlockToBasicHeader content = (bh, none) →
        bh.appID.rawString = slice content 0 1
        ∧ bh.serviceID.rawString = slice content 1 3
        ∧ bh.logicalTerminalAddress = slice content 3 15
        ∧ bh.sessionNumber = slice content 15 19
        ∧ bh.sequenceNumber = content.drop 19) := by
  by_cases hl : content.length = 25
  · by_cases hF : slice content 0 1 = strOf "F"
    · by_cases h01 : slice content 1 3 = strOf "01"
      · have hres : basicHeaderBlockToBasicHeader content =
            ({ raw := blockRaw (strOf "1") content, appID := ApplicationID.financial,
               serviceID := ServiceID.fingpa, sessionNumber := slice content 15 19,
               sequenceNumber := content.drop 19,
               logicalTerminalAddress := slice content 3 15 }, none) := by
          simp [basicHeaderBlockToBasicHeader, hl, hF, h01]
        refine ⟨?_, ?_⟩
        · rw [hres]
          simp [hl, hF, h01]
        · intro bh hbh
          rw [hres] at hbh
          injection hbh with hb h2
          subst hb
          exact ⟨hF.symm, h01.symm, rfl, rfl, rfl⟩
      · by_cases h21 : slice content 1 3 = strOf "21"
        · have hres : basicHeaderBlockToBasicHeader content =
              ({ raw := blockRaw (strOf "1") content, appID := ApplicationID.financial,
                 serviceID := ServiceID.acknack, sessionNumber := slice content 15 19,
                 sequenceNumber := content.drop 19,
                 logicalTerminalAddress := slice content 3 15 }, none) := by
            simp [basicHeaderBlockToBasicHeader, hl, hF, h01, h21, (by decide : strOf "21" ≠ strOf "01")]
          refine ⟨?_, ?_⟩
          · rw [hres]
            simp [hl, hF, h21]
          · intro bh hbh
            rw [hres] at hbh
            injection hbh with hb h2
            subst hb
            exact ⟨hF.symm, h21.symm, rfl, rfl, rfl⟩
        · have hres : basicHeaderBlockToBasicHeader content =
              ({ raw := blockRaw (strOf "1") content, appID := ApplicationID.financial },
                some (.unknownServiceID (slice content 1 3))) := by
            simp [basicHeaderBlockToBasicHeader, hl, hF, h01, h21]
          refine ⟨?_, ?_⟩
          · rw [hres]
            simp [h01, h21]
          · intro bh hbh
            rw [hres] at hbh
            simp [Prod.ext_iff] at hbh
    · by_cases hA : slice content 0 1 = strOf "A"
      · by_cases h01 : slice content 1 3 = strOf "01"
        · have hres : basicHeaderBlockToBasicHeader content =
              ({ raw := blockRaw (strOf "1") content, appID := ApplicationID.general,
                 serviceID := ServiceID.fingpa, sessionNumber := slice content 15 19,
                 sequenceNumber := content.drop 19,
                 logicalTerminalAddress := slice content 3 15 }, none) := by
            simp [basicHeaderBlockToBasicHeader, hl, hF, hA, h01, (by decide : strOf "A" ≠ strOf "F")]
          refine ⟨?_, ?_⟩
          · rw [hres]
            simp [hl, hA, h01]
          · intro bh hbh
            rw [hres] at hbh
            injection hbh with hb h2
            subst hb
            exact ⟨hA.symm, h01.symm, rfl, rfl, rfl⟩
        · by_cases h21 : slice content 1 3 = strOf "21"
          · have hres : basicHeaderBlockToBasicHeader content =
                ({ raw := blockRaw (strOf "1") content, appID := ApplicationID.general,
                   serviceID := ServiceID.acknack, sessionNumber := slice content 15 19,
                   sequenceNumber := content.drop 19,
                   logicalTerminalAddress := slice content 3 15 }, none) := by
              simp [basicHeaderBlockToBasicHeader, hl, hF, hA, h01, h21, (by decide : strOf "A" ≠ strOf "F"), (by decide : strOf "21" ≠ strOf "01")]
            refine ⟨?_, ?_⟩
            · rw [hres]
              simp [hl, hA, h21]
            · intro bh hbh
              rw [hres] at hbh
              injection hbh with hb h2
              subst hb
              exact ⟨hA.symm, h21.symm, rfl, rfl, rfl⟩
          · have hres : basicHeaderBlockToBasicHeader content =
                ({ raw := blockRaw (strOf "1") content, appID := ApplicationID.general },
                  some (.unknownServiceID (slice content 1 3))) := by
              simp [basicHeaderBlockToBasicHeader, hl, hF, hA, h01, h21, (by decide : strOf "A" ≠ strOf "F")]
            refine ⟨?_, ?_⟩
            · rw [hres]
              simp [h01, h21]
            · intro bh hbh
              rw [hres] at hbh
              simp [Prod.ext_iff] at hbh
      · by_cases hL : slice content 0 1 = strOf "L"
        · by_cases h01 : slice content 1 3 = strOf "01"
          · have hres : basicHeaderBlockToBasicHeader content =
                ({ raw := blockRaw (strOf "1") content, appID := ApplicationID.login,
                   serviceID := ServiceID.fingpa, sessionNumber := slice content 15 19,
                   sequenceNumber := content.drop 19,
                   logicalTerminalAddress := slice content 3 15 }, none) := by
              simp [basicHeaderBlockToBasicHeader, hl, hF, hA, hL, h01, (by decide : strOf "L" ≠ strOf "F"), (by decide : strOf "L" ≠ strOf "A")]
            refine ⟨?_, ?_⟩
            · rw [hres]
              simp [hl, hL, h01]
            · intro bh hbh
              rw [hres] at hbh
              injection hbh with hb h2
              subst hb
              exact ⟨hL.symm, h01.symm, rfl, rfl, rfl⟩
          · by_cases h21 : slice content 1 3 = strOf "21"
            · have hres : basicHeaderBlockToBasicHeader content =
                  ({ raw := blockRaw (strOf "1") content, appID := ApplicationID.login,
                     serviceID := ServiceID.acknack, sessionNumber := slice content 15 19,
                     sequenceNumber := content.drop 19,
                     logicalTerminalAddress := slice content 3 15 }, none) := by
                simp [basicHeaderBlockToBasicHeader, hl, hF, hA, hL, h01, h21, (by decide : strOf "L" ≠ strOf "F"), (by decide : strOf "L" ≠ strOf "A"), (by decide : strOf "21" ≠ strOf "01")]
              refine ⟨?_, ?_⟩
              · rw [hres]
                simp [hl, hL, h21]
              · intro bh hbh
                rw [hres] at hbh
                injection hbh with hb h2
                subst hb
                exact ⟨hL.symm, h21.symm, rfl, rfl, rfl⟩
            · have hres : basicHeaderBlockToBasicHeader content =
                  ({ raw := blockRaw (strOf "1") content, appID := ApplicationID.login },
                    some (.unknownServiceID (slice content 1 3))) := by
                simp [basicHeaderBlockToBasicHeader, hl, hF, hA, hL, h01, h21, (by decide : strOf "L" ≠ strOf "F"), (by decide : strOf "L" ≠ strOf "A")]
              refine ⟨?_, ?_⟩
              · rw [hres]
                simp [h01, h21]
              · intro bh hbh
                rw [hres] at hbh
                simp [Prod.ext_iff] at hbh
        · have hres : basicHeaderBlockToBasicHeader content =
              ({ raw := blockRaw (strOf "1") content },
                some (.unknownApplicationID (slice content 0 1))) := by
            simp [basicHeaderBlockToBasicHeader, hl, hF, hA, hL]
          refine ⟨?_, ?_⟩
          · rw [hres]
            simp [hF, hA, hL]
          · intro bh hbh
            rw [hres] at hbh
            simp [Prod.ext_iff] at hbh
  · have hres : basicHeaderBlockToBasicHeader content =
        ({ raw := blockRaw (strOf "1") content },
          some (.invalidLength content.length)) := by
      simp [basicHeaderBlockToBasicHeader, hl]
    refine ⟨?_, ?_⟩
    · rw [hres]
      simp [hl]
    · intro bh hbh
      rw [hres] at hbh
      simp [Prod.ext_iff] at hbh

/-- Claim C4, witness: the reference content F01SCBLZAJJXXXX5712100002
decodes without error, and its address field is SCBLZAJJXXXX. -/
theorem C4_basic_header_witness :
    (basicHeaderBlockToBasicHeader (strOf "F01SCBLZAJJXXXX5712100002")).2 = none
    ∧ (basicHeaderBlockToBasicHeader
        (strOf "F01SCBLZAJJXXXX5712100002")).1.logicalTerminalAddress
      = strOf "SCBLZAJJXXXX" := by
  have h := C4_basic_header (strOf "F01SCBLZAJJXXXX5712100002")
  have hnone : (basicHeaderBlockToBasicHeader (strOf "F01SCBLZAJJXXXX5712100002")).2 = none :=
    h.1.mpr (by decide)
  have hpair : basicHeaderBlockToBasicHeader (strOf "F01SCBLZAJJXXXX5712100002")
      = ((basicHeaderBlockToBasicHeader (strOf "F01SCBLZAJJXXXX5712100002")).1, none) := by
    rw [← hnone]
  have h2 := h.2 _ hpair
  refine ⟨hnone, ?_⟩
  rw [h2.2.2.1]
  decide


/-! ### The app header input block (block 2, direction I) -/

/-- The app header input record, with the fields the decoder touches. -/
structure AppHeaderInput where
  set : Bool := false
  raw : Str := []
  messageType : Str := []
  receiverAddress : Str := []
  messagePriority : Priority := .normal
  deliveryMonitor : DeliveryMonitor := .nonDelivery
  obsolescencePeriodInMinutes : Int := 0

/-- The setPriority closure: S, N or U. -/
def setPriorityGo (h : AppHeaderInput) (char : Str) : AppHeaderInput × Option MTErr :=
  if char = strOf "S" then ({ h with messagePriority := .system }, none)
  else if char = strOf "N" then ({ h with messagePriority := .normal }, none)
  else if char = strOf "U" then ({ h with messagePriority := .urgent }, none)
  else (h, some (.unknownPriority char))

/-- The setDeliveryMonitor closure: 1, 2 or 3. -/
def setDeliveryMonitorGo (h : AppHeaderInput) (char : Str) : AppHeaderInput × Option MTErr :=
  if char = strOf "1" then ({ h with deliveryMonitor := .nonDelivery }, none)
  else if char = strOf "2" then ({ h with deliveryMonitor := .delivery }, none)
  else if char = strOf "3" then ({ h with deliveryMonitor := .both }, none)
  else (h, some (.invalidDeliveryMonitor char))

/-- The setPriorityOrDeliveryMonitor closure. -/
def setPriorityOrDeliveryMonitorGo (h : AppHeaderInput) (char : Str) :
    AppHeaderInput × Option MTErr :=
  if char = strOf "S" ∨ char = strOf "N" ∨ char = strOf "U" then setPriorityGo h char
  else if char = strOf "1" ∨ char = strOf "2" ∨ char = strOf "3" then
    setDeliveryMonitorGo h char
  else (h, some (.invalidPriorityOrDeliveryMonitor char))

/-- leadingZerosRegexp (anchored 0+) replaced by the empty string: the
maximal run of leading zeros is removed. -/
def dropLeadingZeros (s : Str) : Str := s.dropWhile (fun c => decide (c = '0'))

/-- The numeric value of a digit string. -/
def digitsToNat (s : Str) : Nat := s.foldl (fun a c => a * 10 + (c.toNat - 48)) 0

/-- Every character is a decimal digit. -/
def allDigits (s : Str) : Bool := s.all MTPattern.goIsDigit

/-- strconv.Atoi: an optional sign followed by a non-empty run of decimal
digits; anything else is an error.  Integer overflow is unreachable for
the short header tails in reach and is not modelled. -/
def atoiGo : Str → Option Int
  | [] => none
  | c :: rest =>
    if c = '+' then
      if rest ≠ [] ∧ allDigits rest = true then some ((digitsToNat rest : Int)) else none
    else if c = '-' then
      if rest ≠ [] ∧ allDigits rest = true then some (-(digitsToNat rest : Int)) else none
    else if allDigits (c :: rest) = true then some ((digitsToNat (c :: rest) : Int)) else none

/-- The setObsolescencePeriod closure: strip the leading zeros, Atoi, and
multiply the factor by obsolescenceMinutesPerFactor = 5. -/
def setObsolescencePeriodGo (h : AppHeaderInput) (chars : Str) :
    AppHeaderInput × Option MTErr :=
  match atoiGo (dropLeadingZeros chars) with
  | none => (h, some (.invalidObsolescence chars))
  | some factor => ({ h with obsolescencePeriodInMinutes := factor * 5 }, none)

/-- The if err is not nil early return between two steps. -/
def andThen (x : AppHeaderInput × Option MTErr)
    (f : AppHeaderInput → AppHeaderInput × Option MTErr) : AppHeaderInput × Option MTErr :=
  match x with
  | (h, some e) => (h, some e)
  | (h, none) => f h

/-- appHeaderBlockToAppHeaderInput: length below 16 is rejected, the base
fields come from slices 1 to 4 and 4 to 16, and the switch on the length
decodes the optional priority, delivery monitor and obsolescence period. -/
def appHeaderBlockToAppHeaderInput (content : Str) : AppHeaderInput × Option MTErr :=
  let h0 : AppHeaderInput := { raw := blockRaw (strOf "2") content }
  if content.length < 16 then (h0, some (.invalidLength content.length))
  else
    let h1 : AppHeaderInput :=
      { h0 with
          set := true
          messageType := slice content 1 4
          receiverAddress := slice content 4 16 }
    if content.length = 16 then (h1, none)
    else if content.length = 17 then
      setPriorityOrDeliveryMonitorGo h1 (slice content 16 17)
    else if content.length = 18 then
      andThen (setPriorityGo h1 (slice content 16 17)) (fun h2 =>
        setDeliveryMonitorGo h2 (slice content 17 18))
    else if content.length = 19 then
      setObsolescencePeriodGo h1 (content.drop 16)
    else if content.length = 20 then
      andThen (setPriorityOrDeliveryMonitorGo h1 (slice content 16 17)) (fun h2 =>
        setObsolescencePeriodGo h2 (content.drop 17))
    else if content.length = 21 then
      andThen (setPriorityGo h1 (slice content 16 17)) (fun h2 =>
        andThen (setDeliveryMonitorGo h2 (slice content 17 18)) (fun h3 =>
          setObsolescencePeriodGo h3 (content.drop 18)))
    else (h1, some (.invalidLength content.length))

lemma andThen_of_none (x : AppHeaderInput × Option MTErr)
    (f : AppHeaderInput → AppHeaderInput × Option MTErr) (hx : x.2 = none) :
    andThen x f = f x.1 := by
  rcases x with ⟨a, b⟩
  cases b with
  | none => rfl
  | some e => simp at hx

lemma setPODM_snd (h : AppHeaderInput) (m : Char)
    (hm : m ∈ ['S', 'N', 'U', '1', '2', '3']) :
    (setPriorityOrDeliveryMonitorGo h [m]).2 = none := by
  fin_cases hm <;> rfl

lemma setPriorityGo_snd (h : AppHeaderInput) (p : Char) (hp : p ∈ ['S', 'N', 'U']) :
    (setPriorityGo h [p]).2 = none := by
  fin_cases hp <;> rfl

lemma setDMGo_snd (h : AppHeaderInput) (m : Char) (hm : m ∈ ['1', '2', '3']) :
    (setDeliveryMonitorGo h [m]).2 = none := by
  fin_cases hm <;> rfl

lemma digitsToNat_dropZeros (s : Str) :
    digitsToNat (dropLeadingZeros s) = digitsToNat s := by
  induction s with
  | nil => rfl
  | cons c rest ih =>
    by_cases hc : c = '0'
    · subst hc
      have h0 : dropLeadingZeros ('0' :: rest) = dropLeadingZeros rest := by
        simp [dropLeadingZeros, List.dropWhile_cons]
      rw [h0, ih]
      simp [digitsToNat]
    · have h0 : dropLeadingZeros (c :: rest) = c :: rest := by
        simp [dropLeadingZeros, List.dropWhile_cons, hc]
      rw [h0]

lemma atoi_strip_digits (tail : Str)
    (hd : ∀ c ∈ tail, MTPattern.goIsDigit c = true) (hex : ∃ c ∈ tail, c ≠ '0') :
    atoiGo (dropLeadingZeros tail) = some ((digitsToNat tail : Int)) := by
  obtain ⟨c0, hc0, hc0ne⟩ := hex
  have hne : dropLeadingZeros tail ≠ [] := by
    intro hnil
    rw [dropLeadingZeros, List.dropWhile_eq_nil_iff] at hnil
    exact hc0ne (by simpa using hnil c0 hc0)
  obtain ⟨d, srest, hds⟩ := List.exists_cons_of_ne_nil hne
  have hsub : ∀ c ∈ dropLeadingZeros tail, MTPattern.goIsDigit c = true := by
    intro c hcmem
    exact hd c ((List.dropWhile_suffix _).subset hcmem)
  have hdd : MTPattern.goIsDigit d = true :=
    hsub d (by rw [hds]; exact List.mem_cons_self d srest)
  have hplus : ¬ (d = '+') := by
    intro hh
    rw [hh] at hdd
    exact absurd hdd (by decide)
  have hminus : ¬ (d = '-') := by
    intro hh
    rw [hh] at hdd
    exact absurd hdd (by decide)
  have hall : allDigits (d :: srest) = true := by
    rw [allDigits, List.all_eq_true]
    intro c hcmem
    exact hsub c (by rw [hds]; exact hcmem)
  rw [hds, atoiGo, if_neg hplus, if_neg hminus, if_pos hall, ← hds,
    digitsToNat_dropZeros]

lemma atoi_strip_zeros (tail : Str) (hz : ∀ c ∈ tail, c = '0') :
    atoiGo (dropLeadingZeros tail) = none := by
  have hnil : dropLeadingZeros tail = [] := by
    rw [dropLeadingZeros, List.dropWhile_eq_nil_iff]
    intro c hcmem
    simp [hz c hcmem]
  rw [hnil]
  rfl

lemma drop_16_of_len (pre rest : Str) (hp : pre.length = 16) :
    (pre ++ rest).drop 16 = rest := by
  rw [← hp, List.drop_left]

lemma decode_obsolescence_stage (pre mids tail : Str)
    (hp : pre.length = 16) (ht : tail.length = 3)
    (hm : mids = []
      ∨ (∃ m, mids = [m] ∧ m ∈ ['S', 'N', 'U', '1', '2', '3'])
      ∨ (∃ p m, mids = [p, m] ∧ p ∈ ['S', 'N', 'U'] ∧ m ∈ ['1', '2', '3'])) :
    ∃ h, appHeaderBlockToAppHeaderInput (pre ++ mids ++ tail)
      = setObsolescencePeriodGo h tail := by
  rcases hm with hm0 | ⟨m, hm1, hmm⟩ | ⟨p, m, hm2, hpp, hmm⟩
  · subst hm0
    simp only [List.append_nil]
    have hlen : (pre ++ tail).length = 19 := by
      simp [hp, ht]
    have hdrop : (pre ++ tail).drop 16 = tail := drop_16_of_len pre tail hp
    simp only [appHeaderBlockToAppHeaderInput, hlen, hdrop]
    norm_num
    exact ⟨_, rfl⟩
  · subst hm1
    have hlen : (pre ++ [m] ++ tail).length = 20 := by
      simp [hp, ht]
    have hdrop16 : (pre ++ [m] ++ tail).drop 16 = m :: tail := by
      rw [List.append_assoc]
      exact drop_16_of_len pre ([m] ++ tail) hp
    have hslice : slice (pre ++ [m] ++ tail) 16 17 = [m] := by
      rw [slice, hdrop16]
      norm_num
    have hdrop17 : (pre ++ [m] ++ tail).drop 17 = tail := by
      rw [show (17 : Nat) = 16 + 1 from rfl, ← List.drop_drop, hdrop16]
      simp
    simp only [appHeaderBlockToAppHeaderInput, hlen, hslice, hdrop17]
    norm_num
    rw [andThen_of_none _ _ (setPODM_snd _ m hmm)]
    exact ⟨_, rfl⟩
  · subst hm2
    have hlen : (pre ++ [p, m] ++ tail).length = 21 := by
      simp [hp, ht]
    have hdrop16 : (pre ++ [p, m] ++ tail).drop 16 = p :: m :: tail := by
      rw [List.append_assoc]
      exact drop_16_of_len pre ([p, m] ++ tail) hp
    have hslice16 : slice (pre ++ [p, m] ++ tail) 16 17 = [p] := by
      rw [slice, hdrop16]
      norm_num
    have hdrop17 : (pre ++ [p, m] ++ tail).drop 17 = m :: tail := by
      rw [show (17 : Nat) = 16 + 1 from rfl, ← List.drop_drop, hdrop16]
      simp
    have hslice17 : slice (pre ++ [p, m] ++ tail) 17 18 = [m] := by
      rw [slice, hdrop17]
      norm_num
    have hdrop18 : (pre ++ [p, m] ++ tail).drop 18 = tail := by
      rw [show (18 : Nat) = 17 + 1 from rfl, ← List.drop_drop, hdrop17]
      simp
    simp only [appHeaderBlockToAppHeaderInput, hlen, hslice16, hslice17, hdrop18]
    norm_num
    rw [andThen_of_none _ _ (setPriorityGo_snd _ p hpp),
      andThen_of_none _ _ (setDMGo_snd _ m hmm)]
    exact ⟨_, rfl⟩

/-- Claim C8, counterexample: the length-19 content I940SCBLZAJJXXXX000
has a tail of three decimal digits with value 0, yet the decoder reports
an invalid obsolescence period instead of 0 times 5 minutes, because
stripping the leading zeros leaves the empty string, which Atoi rejects;
and the non-numeric tail of I940SCBLZAJJXXXX0-5 does not produce an
invalid-obsolescence error but decodes to minus 25 minutes, because
stripping the leading zero leaves -5, which Atoi accepts. -/
theorem C8_obsolescence_counterexample :
    ((∀ c ∈ strOf "000", MTPattern.goIsDigit c = true)
      ∧ (appHeaderBlockToAppHeaderInput (strOf "I940SCBLZAJJXXXX000")).2
          = some (.invalidObsolescence (strOf "000")))
    ∧ ((¬ ∀ c ∈ strOf "0-5", MTPattern.goIsDigit c = true)
      ∧ (appHeaderBlockToAppHeaderInput (strOf "I940SCBLZAJJXXXX0-5")).2 = none
      ∧ (appHeaderBlockToAppHeaderInput
          (strOf "I940SCBLZAJJXXXX0-5")).1.obsolescencePeriodInMinutes = -25) := by
  decide

/-- Claim C8, amended: for contents of length 19, 20 and 21 (the longer
two with valid priority and delivery monitor characters in between), the
decoder strips the leading zeros from the tail and applies Atoi: a tail
of three decimal digits with at least one nonzero digit decodes to its
decimal value times 5 minutes without error, an all-zero tail produces an
invalid-obsolescence error, and in general a stripped tail Atoi accepts
(including signed ones such as -5) gives its value times 5 minutes while
a stripped tail Atoi rejects gives the invalid-obsolescence error. -/
theorem C8_obsolescence_amended (pre mids tail : Str)
    (hp : pre.length = 16) (ht : tail.length = 3)
    (hm : mids = []
      ∨ (∃ m, mids = [m] ∧ m ∈ ['S', 'N', 'U', '1', '2', '3'])
      ∨ (∃ p m, mids = [p, m] ∧ p ∈ ['S', 'N', 'U'] ∧ m ∈ ['1', '2', '3'])) :
    ((∀ c ∈ tail, MTPattern.goIsDigit c = true) → (∃ c ∈ tail, c ≠ '0') →
      (appHeaderBlockToAppHeaderInput (pre ++ mids ++ tail)).2 = none
      ∧ (appHeaderBlockToAppHeaderInput (pre ++ mids ++ tail)).1.obsolescencePeriodInMinutes
          = (digitsToNat tail : Int) * 5)
    ∧ ((∀ c ∈ tail, c = '0') →
      (appHeaderBlockToAppHeaderInput (pre ++ mids ++ tail)).2
        = some (.invalidObsolescence tail))
    ∧ (∀ factor : Int, atoiGo (dropLeadingZeros tail) = some factor →
      (appHeaderBlockToAppHeaderInput (pre ++ mids ++ tail)).2 = none
      ∧ (appHeaderBlockToAppHeaderInput (pre ++ mids ++ tail)).1.obsolescencePeriodInMinutes
          = factor * 5)
    ∧ (atoiGo (dropLeadingZeros tail) = none →
      (appHeaderBlockToAppHeaderInput (pre ++ mids ++ tail)).2
        = some (.invalidObsolescence tail)) := by
  obtain ⟨h, hred⟩ := decode_obsolescence_stage pre mids tail hp ht hm
  rw [hred]
  refine ⟨fun hd hex => ?_, fun hz => ?_, fun factor hfac => ?_, fun hnone => ?_⟩
  · rw [setObsolescencePeriodGo, atoi_strip_digits tail hd hex]
    exact ⟨rfl, rfl⟩
  · rw [setObsolescencePeriodGo, atoi_strip_zeros tail hz]
  · rw [setObsolescencePeriodGo, hfac]
    exact ⟨rfl, rfl⟩
  · rw [setObsolescencePeriodGo, hnone]

/-- Claim C8 amended, witness: I940SCBLZAJJXXXX020 decodes without error
to an obsolescence period of 100 minutes, and I940SCBLZAJJXXXX0-5
decodes without error to minus 25 minutes. -/
theorem C8_obsolescence_amended_witness :
    ((appHeaderBlockToAppHeaderInput
      (strOf "I940SCBLZAJJXXXX" ++ [] ++ strOf "020")).2 = none
    ∧ (appHeaderBlockToAppHeaderInput
        (strOf "I940SCBLZAJJXXXX" ++ [] ++ strOf "020")).1.obsolescencePeriodInMinutes
      = 100)
    ∧ ((appHeaderBlockToAppHeaderInput
      (strOf "I940SCBLZAJJXXXX" ++ [] ++ strOf "0-5")).2 = none
    ∧ (appHeaderBlockToAppHeaderInput
        (strOf "I940SCBLZAJJXXXX" ++ [] ++ strOf "0-5")).1.obsolescencePeriodInMinutes
      = -25) := by
  constructor
  · have h := (C8_obsolescence_amended (strOf "I940SCBLZAJJXXXX") [] (strOf "020")
      (by decide) (by decide) (Or.inl rfl)).1 (by decide) (by decide)
    exact ⟨h.1, by rw [h.2]; decide⟩
  · have h := ((C8_obsolescence_amended (strOf "I940SCBLZAJJXXXX") [] (strOf "0-5")
      (by decide) (by decide) (Or.inl rfl)).2.2.1) (-5) (by decide)
    exact ⟨h.1, by rw [h.2]; decide⟩

end MT

namespace MT940

/-! ### StatementLine.UnmarshalMT (package mt940)

The inputs in reach are ASCII, where Go byte indexing agrees with
character positions.  Indexing or slicing past the end of a Go string
aborts the program; those aborts are the outer none of the decoder.  The
source converts the scanned amount text with ParseFloat and discards the
error, so the amount is kept here as the scanned string itself. -/

/-- FundsCode with its Go zero value first. -/
inductive FundsCode where
  | unknown
  | credit
  | debit
  | creditReversal
  | debitReversal
  deriving DecidableEq

/-- The error returns of UnmarshalMT, by kind. -/
inductive SLErr where
  | invalidDate
  | invalidEntryDate
  | invalidFundsCode
  deriving DecidableEq

/-- The statement line record, with amount kept as its scanned text. -/
structure StatementLine where
  set : Bool := false
  raw : Str := []
  dateRaw : Str := []
  entryDateRaw : Str := []
  fundsCode : FundsCode := .unknown
  amountStr : Str := []
  swiftCode : Str := []
  accountOwnerReference : Str := []
  bankReference : Str := []
  description : Str := []
  deriving DecidableEq

/-- Days per month in the proleptic Gregorian calendar of Go time. -/
def daysIn (year month : Nat) : Nat :=
  if month = 2 then
    if year % 4 = 0 ∧ (year % 100 ≠ 0 ∨ year % 400 = 0) then 29 else 28
  else if month = 4 ∨ month = 6 ∨ month = 9 ∨ month = 11 then 30
  else 31

/-- A fixed-width two-digit number of time.Parse. -/
def digit2 (a b : Char) : Option Nat :=
  if MTPattern.goIsDigit a = true ∧ MTPattern.goIsDigit b = true then
    some ((a.toNat - 48) * 10 + (b.toNat - 48))
  else none

/-- time.Parse with layout 060102: six digits, the two-digit year with
the 69 pivot of Go time, then month and day validity. -/
def dateOK (s : Str) : Bool :=
  match s with
  | [y1, y2, m1, m2, d1, d2] =>
    match digit2 y1 y2, digit2 m1 m2, digit2 d1 d2 with
    | some yy, some mm, some dd =>
      let year := if 69 ≤ yy then 1900 + yy else 2000 + yy
      decide (1 ≤ mm ∧ mm ≤ 12) && decide (1 ≤ dd) && decide (dd ≤ daysIn year mm)
    | _, _, _ => false
  | _ => false

/-- time.Parse with layout 0102: month and day in year 0, a leap year. -/
def monthOK (s : Str) : Bool :=
  match s with
  | [m1, m2, d1, d2] =>
    match digit2 m1 m2, digit2 d1 d2 with
    | some mm, some dd =>
      decide (1 ≤ mm ∧ mm ≤ 12) && decide (1 ≤ dd) && decide (dd ≤ daysIn 0 mm)
    | _, _ => false
  | _ => false

/-- The amount loop: digits and commas advance the index, the first other
character stops it, and running past the end of the string is an index
panic (none). -/
def amountScan : Str → Option Nat
  | [] => none
  | c :: rest =>
    if MTPattern.goIsDigit c = true ∨ c = ',' then (amountScan rest).map (· + 1)
    else some 0

/-- Go slicing with its bounds check; none is the slice panic. -/
def sliceChk (s : Str) (a b : Nat) : Option Str :=
  if a ≤ b ∧ b ≤ s.length then some ((s.drop a).take (b - a)) else none

/-- strings.Split on the two-character separator of the bank reference. -/
def splitOnDD : Str → List Str
  | '/' :: '/' :: rest => [] :: splitOnDD rest
  | c :: rest =>
    match splitOnDD rest with
    | [] => [[c]]
    | h :: t => (c :: h) :: t
  | [] => [[]]

/-- The funds code switch: prefixes RC, RD, C, D; none is the error
default. -/
def parseFunds (r : Str) : Option (FundsCode × Str) :=
  if (strOf "RC").isPrefixOf r then some (.creditReversal, r.drop 2)
  else if (strOf "RD").isPrefixOf r then some (.debitReversal, r.drop 2)
  else if (strOf "C").isPrefixOf r then some (.credit, r.drop 1)
  else if (strOf "D").isPrefixOf r then some (.debit, r.drop 1)
  else none

/-- The tail of UnmarshalMT after date and entry date: funds code, amount
scan, SWIFT code slice, reference split and description. -/
def slAfterEntry (input : Str) (lines : List Str) (dateStr edRaw r2 : Str) :
    Option (Except SLErr StatementLine) :=
  match parseFunds r2 with
  | none => some (.error .invalidFundsCode)
  | some (fc, r3) =>
    match amountScan r3 with
    | none => none
    | some n =>
      let amountStr := r3.take n
      let r4 := r3.drop n
      match sliceChk r4 0 4 with
      | none => none
      | some sw =>
        let r5 := r4.drop 4
        let split := splitOnDD r5
        let aor := if split.length = 2 then split.headD [] else r5
        let br : Str := if split.length = 2 then '/' :: '/' :: split.getD 1 [] else []
        let desc := if 1 < lines.length then lines.getD 1 [] else []
        some (.ok
          { set := true
            raw := input
            dateRaw := dateStr
            entryDateRaw := edRaw
            fundsCode := fc
            amountStr := amountStr
            swiftCode := sw
            accountOwnerReference := aor
            bankReference := br
            description := desc })

/-- StatementLine.UnmarshalMT: split on newlines (always non-empty), the
date slice of the first line, the optional entry date when the remainder
does not open with C or D, then the shared tail. -/
def unmarshalStatementLine (input : Str) : Option (Except SLErr StatementLine) :=
  let lines := MTPattern.splitNl input
  let line1 := lines.headD []
  match sliceChk line1 0 6 with
  | none => none
  | some dateStr =>
    if dateOK dateStr = true then
      let r1 := line1.drop 6
      if !((strOf "C").isPrefixOf r1) && !((strOf "D").isPrefixOf r1) then
        match sliceChk r1 0 4 with
        | none => none
        | some edStr =>
          if monthOK edStr = true then
            slAfterEntry input lines dateStr edStr (r1.drop 4)
          else some (.error .invalidEntryDate)
      else slAfterEntry input lines dateStr [] r1
    else some (.error .invalidDate)

/-- Claim C9: StatementLine.UnmarshalMT is not total: the unbounded amount
loop runs past the end of 031020C20000,00, and the four-character SWIFT
code slice overruns on 031020C0,0ABC, while the documented example input
still decodes successfully. -/
theorem C9_unmarshal_not_total :
    unmarshalStatementLine (strOf "031020C20000,00") = none
    ∧ unmarshalStatementLine (strOf "031020C0,0ABC") = none
    ∧ (unmarshalStatementLine
        (strOf "0310201020C20000,00FMSCNONREF//8327000090031789\nCard transaction")).isSome
      = true
    ∧ ¬ (∀ s : Str, (unmarshalStatementLine s).isSome = true) := by
  have h1 : unmarshalStatementLine (strOf "031020C20000,00") = none := by rfl
  refine ⟨h1, by rfl, by rfl, fun hall => ?_⟩
  have h := hall (strOf "031020C20000,00")
  rw [h1] at h
  simp at h

end MT940
